import Mathlib

/-!
Verification development for the Artemis / Hyperliquid perp-account-value
reconciliation pipeline (scripts: extraction_data.py, normalize_data.py,
analysis.py, analysis_normalized.py).

Conventions of the shallow embedding:
* Real-valued quantities (account values, flow amounts, percentages) are
  modeled as rationals.  The scripts compute with IEEE floats; the claims
  under study are about the algebra of the computations, not float error,
  so exact rational arithmetic is the intended reading.
* Calendar dates are modeled as integers (days since an arbitrary epoch):
  the scripts round-trip dates through "%Y-%m-%d" strings and add or
  subtract timedelta(days=1), which is +1 / -1 on day numbers.
* Ledger events are raw JSON documents; they are modeled by the inductive
  type JVal below.  A Python dict is an object node whose keys are unique.
  The constructor JVal.num stands for any payload that Python float()
  accepts (a JSON number, or the numeric decimal strings the ledger API
  uses for amounts); JVal.str stands for strings float() rejects.
* Fallible steps are modeled with Option / Except, never by panics.
-/

/-- A JSON value, as handled by json.loads / json.dumps in the scripts.
Objects are ordered lists of key-value pairs so that the same logical
dictionary can be represented with its fields in different orders, which is
what the dedup logic of get_all_ledger_events has to collapse. -/
inductive JVal where
  | num (q : ℚ)
  | str (s : String)
  | bool (b : Bool)
  | null
  | arr (xs : List JVal)
  | obj (fields : List (String × JVal))

mutual

/-- Decidable structural equality for JVal (hand-written: the automatic
deriving handler does not support this nested inductive). -/
def decEqJ : (a b : JVal) → Decidable (a = b)
  | .num a, .num b => decidable_of_iff (a = b) (by simp)
  | .num _, .str _ => isFalse (fun h => JVal.noConfusion h)
  | .num _, .bool _ => isFalse (fun h => JVal.noConfusion h)
  | .num _, .null => isFalse (fun h => JVal.noConfusion h)
  | .num _, .arr _ => isFalse (fun h => JVal.noConfusion h)
  | .num _, .obj _ => isFalse (fun h => JVal.noConfusion h)
  | .str _, .num _ => isFalse (fun h => JVal.noConfusion h)
  | .str a, .str b => decidable_of_iff (a = b) (by simp)
  | .str _, .bool _ => isFalse (fun h => JVal.noConfusion h)
  | .str _, .null => isFalse (fun h => JVal.noConfusion h)
  | .str _, .arr _ => isFalse (fun h => JVal.noConfusion h)
  | .str _, .obj _ => isFalse (fun h => JVal.noConfusion h)
  | .bool _, .num _ => isFalse (fun h => JVal.noConfusion h)
  | .bool _, .str _ => isFalse (fun h => JVal.noConfusion h)
  | .bool a, .bool b => decidable_of_iff (a = b) (by simp)
  | .bool _, .null => isFalse (fun h => JVal.noConfusion h)
  | .bool _, .arr _ => isFalse (fun h => JVal.noConfusion h)
  | .bool _, .obj _ => isFalse (fun h => JVal.noConfusion h)
  | .null, .num _ => isFalse (fun h => JVal.noConfusion h)
  | .null, .str _ => isFalse (fun h => JVal.noConfusion h)
  | .null, .bool _ => isFalse (fun h => JVal.noConfusion h)
  | .null, .null => isTrue rfl
  | .null, .arr _ => isFalse (fun h => JVal.noConfusion h)
  | .null, .obj _ => isFalse (fun h => JVal.noConfusion h)
  | .arr _, .num _ => isFalse (fun h => JVal.noConfusion h)
  | .arr _, .str _ => isFalse (fun h => JVal.noConfusion h)
  | .arr _, .bool _ => isFalse (fun h => JVal.noConfusion h)
  | .arr _, .null => isFalse (fun h => JVal.noConfusion h)
  | .arr xs, .arr ys =>
      match decEqLJ xs ys with
      | isTrue h => isTrue (by rw [h])
      | isFalse h => isFalse (fun e => h (by injection e))
  | .arr _, .obj _ => isFalse (fun h => JVal.noConfusion h)
  | .obj _, .num _ => isFalse (fun h => JVal.noConfusion h)
  | .obj _, .str _ => isFalse (fun h => JVal.noConfusion h)
  | .obj _, .bool _ => isFalse (fun h => JVal.noConfusion h)
  | .obj _, .null => isFalse (fun h => JVal.noConfusion h)
  | .obj _, .arr _ => isFalse (fun h => JVal.noConfusion h)
  | .obj fs, .obj gs =>
      match decEqFJ fs gs with
      | isTrue h => isTrue (by rw [h])
      | isFalse h => isFalse (fun e => h (by injection e))

/-- Decidable equality on lists of JVal. -/
def decEqLJ : (a b : List JVal) → Decidable (a = b)
  | [], [] => isTrue rfl
  | [], _ :: _ => isFalse (fun h => List.noConfusion h)
  | _ :: _, [] => isFalse (fun h => List.noConfusion h)
  | x :: xs, y :: ys =>
      match decEqJ x y with
      | isFalse h => isFalse (fun e => h (by injection e))
      | isTrue h1 =>
        match decEqLJ xs ys with
        | isTrue h2 => isTrue (by rw [h1, h2])
        | isFalse h2 => isFalse (fun e => h2 (by injection e))

/-- Decidable equality on object field lists. -/
def decEqFJ : (a b : List (String × JVal)) → Decidable (a = b)
  | [], [] => isTrue rfl
  | [], _ :: _ => isFalse (fun h => List.noConfusion h)
  | _ :: _, [] => isFalse (fun h => List.noConfusion h)
  | (k, v) :: fs, (k2, v2) :: gs =>
      match String.decEq k k2 with
      | isFalse h => isFalse (fun e => h (by injection e with e1 e2; injection e1))
      | isTrue hk =>
        match decEqJ v v2 with
        | isFalse h => isFalse (fun e => h (by injection e with e1 e2; injection e1))
        | isTrue hv =>
          match decEqFJ fs gs with
          | isTrue h2 => isTrue (by rw [hk, hv, h2])
          | isFalse h2 => isFalse (fun e => h2 (by injection e))
end

instance : DecidableEq JVal := decEqJ

/-- Lexicographic order on character lists by code point, the order in which
json.dumps with sort_keys=True emits object keys. -/
def lexLe : List Char → List Char → Bool
  | [], _ => true
  | _ :: _, [] => false
  | c :: cs, d :: ds =>
    if c.toNat < d.toNat then true
    else if d.toNat < c.toNat then false
    else lexLe cs ds

/-- Key order used when canonicalizing objects. -/
def keyLe (a b : String) : Bool := lexLe a.data b.data

/-- The field order used on canonical objects: compare keys. -/
def fieldLe (a b : String × JVal) : Prop := keyLe a.1 b.1 = true

instance : DecidableRel fieldLe := fun a b => instDecidableEqBool (keyLe a.1 b.1) true

/-- Canonical form of a JSON value: every object has its fields sorted by
key, recursively.  Two dicts serialize to the same json.dumps(sort_keys=True)
string exactly when their canonical forms agree, so this is the deduplication
key used by get_all_ledger_events. -/
def canon : JVal → JVal
  | .num q => .num q
  | .str s => .str s
  | .bool b => .bool b
  | .null => .null
  | .arr xs => .arr (xs.attach.map fun x => canon x.1)
  | .obj fs => .obj (List.insertionSort fieldLe
      (fs.attach.map fun kv => (kv.1.1, canon kv.1.2)))
decreasing_by
  · have := List.sizeOf_lt_of_mem x.2
    simp only [JVal.arr.sizeOf_spec]
    omega
  · obtain ⟨⟨a, b⟩, hm⟩ := kv
    have h1 := List.sizeOf_lt_of_mem hm
    simp only [JVal.obj.sizeOf_spec, Prod.mk.sizeOf_spec] at h1 ⊢
    omega

/-! ## Ledger flow extraction (normalize_data.py, extract_flows and
get_all_ledger_events) -/

/-- Dictionary field lookup: dict.get(k) in Python, returning the value of
the first field named k (a Python dict has unique keys, so there is at most
one).  On a non-object this returns none; the scripts only ever call .get on
dicts. -/
def getField : JVal → String → Option JVal
  | .obj fs, k => (fs.find? fun kv => kv.1 == k).map fun kv => kv.2
  | _, _ => none

/-- Python float(x) applied to a JSON payload: JVal.num (a number, or one of
the numeric decimal strings the ledger API uses for amounts) converts;
every other shape raises ValueError or TypeError, which the extractor
catches.  See the module conventions above. -/
def asFloat : JVal → Option ℚ
  | .num q => some q
  | _ => none

/-- Python truthiness of delta.get("toPerp", False): absent key defaults to
False; otherwise the usual Python rules for the JSON payload. -/
def truthy : Option JVal → Bool
  | none => false
  | some (.bool b) => b
  | some .null => false
  | some (.num q) => decide (q ≠ 0)
  | some (.str s) => decide (s ≠ "")
  | some (.arr xs) => decide (xs ≠ [])
  | some (.obj fs) => decide (fs ≠ [])

/-- Python int() on a rational: truncation toward zero (timestamps are
integral in practice, so this is the identity on them). -/
def pyTrunc (q : ℚ) : ℤ := if q < 0 then -(Int.floor (-q)) else Int.floor q

/-- The comparison delta.get(k, "") == s of the send branch: a missing key
defaults to the empty string; a non-string payload compares unequal to any
string (Python cross-type equality). -/
def strFieldEq (delta : JVal) (k s : String) : Bool :=
  match getField delta k with
  | none => decide (s = "")
  | some (.str t) => decide (t = s)
  | some _ => false

/-- The amount expression float(delta.get(k, 0)): a missing key defaults to
0; a present payload goes through float(), whose failure (caught as
ValueError/TypeError) is none. -/
def amtOrZero (delta : JVal) (k : String) : Option ℚ :=
  match getField delta k with
  | none => some 0
  | some v => asFloat v

/-- The amount expression float(delta.get("usdcValue", delta.get("amount", 0)))
of the send branch. -/
def sendAmt (delta : JVal) : Option ℚ :=
  match getField delta "usdcValue" with
  | some v => asFloat v
  | none => amtOrZero delta "amount"

/-- Per-event flow derivation at a known timestamp t, from the if/elif chain
on delta["type"] in extract_flows (normalize_data.py lines 85-129).  Sign
convention: deposit +, withdraw -, rewardsClaim +, send perp-to-spot -,
send spot-to-perp +, accountClassTransfer toPerp + else -.  A deposit or
withdraw whose "usdc" key is missing is skipped (KeyError is caught); the
other branches default a missing amount to 0 via .get(..., 0).  A present
but non-numeric amount is skipped in every branch (ValueError/TypeError is
caught).  An unrecognized type falls through producing nothing. -/
def flowsAt (t : ℤ) (delta : JVal) : List (ℤ × ℚ) :=
  let typ := getField delta "type"
  if typ = some (.str "deposit") then
    match getField delta "usdc" with
    | none => []
    | some v =>
      match asFloat v with
      | some a => [(t, a)]
      | none => []
  else if typ = some (.str "withdraw") then
    match getField delta "usdc" with
    | none => []
    | some v =>
      match asFloat v with
      | some a => [(t, -a)]
      | none => []
  else if typ = some (.str "rewardsClaim") then
    match amtOrZero delta "amount" with
    | some a => [(t, a)]
    | none => []
  else if typ = some (.str "send") then
    match sendAmt delta with
    | none => []
    | some a =>
      if strFieldEq delta "sourceDex" "" && strFieldEq delta "destinationDex" "spot" then
        [(t, -a)]
      else if strFieldEq delta "sourceDex" "spot" && strFieldEq delta "destinationDex" "" then
        [(t, a)]
      else []
  else if typ = some (.str "accountClassTransfer") then
    match amtOrZero delta "usdc" with
    | none => []
    | some a =>
      if truthy (getField delta "toPerp") then [(t, a)] else [(t, -a)]
  else []

/-- delta = ev.get("delta", {}): a missing delta defaults to the empty
dict. -/
def deltaOf (ev : JVal) : JVal := (getField ev "delta").getD (.obj [])

/-- typ = delta.get("type"). -/
def typOf (ev : JVal) : Option JVal := getField (deltaOf ev) "type"

/-- Flows contributed by one ledger event: an event whose "time" is missing
or null is dropped (ts is None), and a present numeric time goes through
int(ts).  (A time of any other shape would raise in the source outside
every handler; such events are outside the modeled domain, see evWf
below.) -/
def flowsOfEvent (ev : JVal) : List (ℤ × ℚ) :=
  match getField ev "time" with
  | some (.num q) => flowsAt (pyTrunc q) (deltaOf ev)
  | _ => []

/-- The timestamp-ascending order on flows used by flows.sort(key=...). -/
def flowLe (a b : ℤ × ℚ) : Prop := a.1 ≤ b.1

instance : DecidableRel flowLe := fun a b => Int.decLe a.1 b.1

instance : IsTotal (ℤ × ℚ) flowLe := ⟨fun a b => Int.le_total a.1 b.1⟩

instance : IsTrans (ℤ × ℚ) flowLe := ⟨fun _ _ _ => Int.le_trans⟩

/-- extract_flows (normalize_data.py lines 66-132): parse every event into
its flows, in input order, then sort by timestamp. -/
def extract_flows (events : List JVal) : List (ℤ × ℚ) :=
  List.insertionSort flowLe (events.flatMap flowsOfEvent)

/-- The deduplication step of get_all_ledger_events (lines 59-63):
list({json.dumps(ev, sort_keys=True): ev for ev in all_events}.values()).
The dict key is the canonical form (keys sorted recursively); dict
semantics keep the position of the first occurrence of a key and the value
of its last occurrence. -/
def dedupStep (acc : List JVal) (e : JVal) : List JVal :=
  if acc.any fun x => decide (canon x = canon e) then
    acc.map fun x => if canon x = canon e then e else x
  else acc ++ [e]

def dedup (events : List JVal) : List JVal :=
  events.foldl dedupStep []

/-- Well-formedness of a modeled ledger event: the top level and the delta
payload have unique keys, as Python dicts do.  (Faithfulness domain: the
source would crash, rather than skip, on an event whose delta is present
but not a dict or whose time is present, non-null and non-numeric; the
events the ledger API returns are dicts with numeric times.) -/
def topKeysNodup : JVal → Prop
  | .obj fs => (fs.map Prod.fst).Nodup
  | _ => True

def evWf (ev : JVal) : Prop :=
  topKeysNodup ev ∧ ∀ d, getField ev "delta" = some d → topKeysNodup d

/-! ## Numeric model: Python round and the diff classifier
(extraction_data.py build_comparison, normalize_data.py main) -/

/-- Python round() on a rational: round half to even (banker's rounding). -/
def rndHalfEven (x : ℚ) : ℤ :=
  let n := Int.floor x
  let frac := x - n
  if frac < 1 / 2 then n
  else if 1 / 2 < frac then n + 1
  else if n % 2 = 0 then n else n + 1

/-- Python round(x, dp). -/
def roundTo (dp : ℕ) (x : ℚ) : ℚ := (rndHalfEven (x * 10 ^ dp) : ℚ) / 10 ^ dp

/-- The exact (pre-rounding) percentage difference of a value pair:
denom = max(abs(a), abs(b)); 0 when denom is 0, else abs(a-b)/denom*100. -/
def pctExact (a b : ℚ) : ℚ :=
  if max |a| |b| ≠ 0 then |a - b| / max |a| |b| * 100 else 0

/-- The tolerance threshold: match iff pct < 0.5. -/
def THRESHOLD : ℚ := 1 / 2

/-- A stored Diff record {abs, pct, match}.  The JSON field "match" is a
reserved word in Lean and is called isMatch here. -/
structure Diff where
  abs : Option ℚ
  pct : Option ℚ
  isMatch : Option Bool
  deriving DecidableEq, Repr

/-- The raw diff stored by build_comparison (extraction_data.py lines
320-356): both values present gives abs unrounded, pct rounded to 4
decimals, match decided on the unrounded pct; otherwise all three fields
are null. -/
def mkDiff (a b : Option ℚ) : Diff :=
  match a, b with
  | some av, some bv =>
    { abs := some |av - bv|
      pct := some (roundTo 4 (pctExact av bv))
      isMatch := some (decide (pctExact av bv < THRESHOLD)) }
  | _, _ => { abs := none, pct := none, isMatch := none }

/-- One side of a stored pair: {value, last_timestamp} plus, on the
hyperliquid side, source_date. -/
structure SideObs where
  value : Option ℚ
  last_timestamp : Option ℤ
  source_date : Option ℤ := none
  deriving DecidableEq, Repr

/-- One day entry of an address series in comparison_output.json. -/
structure DayEntry where
  date : ℤ
  artemis : SideObs
  hyperliquid : SideObs
  diff : Diff
  deriving DecidableEq, Repr

/-- The hyperliquid_normalized record written by normalize_data.py. -/
structure NormalizedObs where
  value : Option ℚ
  last_timestamp : Option ℤ
  source_date : Option ℤ
  flow_adjustment : ℚ
  events_in_gap : ℕ
  deriving DecidableEq, Repr

/-- The two fields normalize_data.py adds to a day entry. -/
structure NormalizedDay where
  hyperliquid_normalized : NormalizedObs
  diff_normalized : Diff
  deriving DecidableEq, Repr

/-! ## Gap Normalizer (normalize_data.py main, lines 203-259) -/

/-- Flows in the half-open window (gap_start, gap_end]: events strictly
after the HL snapshot, up to and including the Artemis snapshot. -/
def gapFlows (flows : List (ℤ × ℚ)) (gapStart gapEnd : ℤ) : List (ℤ × ℚ) :=
  flows.filter fun f => decide (gapStart < f.1) && decide (f.1 ≤ gapEnd)

/-- Net signed flow in the gap window. -/
def netFlow (flows : List (ℤ × ℚ)) (gapStart gapEnd : ℤ) : ℚ :=
  ((gapFlows flows gapStart gapEnd).map Prod.snd).sum

/-- The diff_normalized record recomputed from the artemis value and the
normalized value (lines 231-250): abs rounded to 6 decimals, pct to 4,
match decided on the unrounded pct; all-null when artemis is absent. -/
def normDiff (artVal : Option ℚ) (normalizedVal : ℚ) : Diff :=
  match artVal with
  | some av =>
    { abs := some (roundTo 6 |av - normalizedVal|)
      pct := some (roundTo 4 (pctExact av normalizedVal))
      isMatch := some (decide (pctExact av normalizedVal < THRESHOLD)) }
  | none => { abs := none, pct := none, isMatch := none }

/-- The no-op fallback record (lines 166-173, 190-197 and 252-259): the
normalized value is the raw hyperliquid value (possibly absent),
flow_adjustment 0, events_in_gap 0, and diff_normalized is the raw diff
copied verbatim. -/
def fallbackDay (day : DayEntry) : NormalizedDay :=
  { hyperliquid_normalized :=
    { value := day.hyperliquid.value
      last_timestamp := day.hyperliquid.last_timestamp
      source_date := day.hyperliquid.source_date
      flow_adjustment := 0
      events_in_gap := 0 }
    diff_normalized := day.diff }

/-- Per-day normalization (lines 205-259).  When the HL timestamp, Artemis
timestamp and HL value are all present, flows in (hl_ts, art_ts] are
summed, the stored normalized value is round(hl_val + net, 6), and the
diff is recomputed against the unrounded normalized value; otherwise the
no-op fallback applies. -/
def normalizeDay (flows : List (ℤ × ℚ)) (day : DayEntry) : NormalizedDay :=
  match day.hyperliquid.last_timestamp, day.artemis.last_timestamp,
      day.hyperliquid.value with
  | some hlTs, some artTs, some hlVal =>
    { hyperliquid_normalized :=
      { value := some (roundTo 6 (hlVal + netFlow flows hlTs artTs))
        last_timestamp := some hlTs
        source_date := day.hyperliquid.source_date
        flow_adjustment := roundTo 6 (netFlow flows hlTs artTs)
        events_in_gap := (gapFlows flows hlTs artTs).length }
      diff_normalized := normDiff day.artemis.value (hlVal + netFlow flows hlTs artTs) }
  | _, _, _ => fallbackDay day

/-- The timestamps collected to bound the ledger fetch (lines 154-161):
per day, the artemis then the hyperliquid last_timestamp, each kept only
when truthy (Python: a 0 timestamp is falsy). -/
def allTs (series : List DayEntry) : List ℤ :=
  series.flatMap fun day =>
    (match day.artemis.last_timestamp with
      | some t => if t ≠ 0 then [t] else []
      | none => []) ++
    (match day.hyperliquid.last_timestamp with
      | some t => if t ≠ 0 then [t] else []
      | none => [])

/-- Processing of one address block (lines 149-259): if no timestamps are
available, or the ledger fetch raised, every day gets the no-op fallback;
otherwise every day is normalized against the flows extracted from the
deduplicated ledger events. -/
def processAddress (ledger : Except Unit (List JVal)) (series : List DayEntry) :
    List NormalizedDay :=
  if allTs series = [] then series.map fallbackDay
  else
    match ledger with
    | .error _ => series.map fallbackDay
    | .ok events => series.map (normalizeDay (extract_flows events))

/-- The whole normalization loop over address blocks: one ledger-fetch
outcome and one series per address, processed independently. -/
def processAll (blocks : List (Except Unit (List JVal) × List DayEntry)) :
    List (List NormalizedDay) :=
  blocks.map fun b => processAddress b.1 b.2

/-! ## Selector, day-shift aligner and comparison builder
(extraction_data.py) -/

/-- A raw observation: {timestamp_ms, account_value}. -/
structure ObsRec where
  timestamp_ms : ℤ
  account_value : ℚ
  deriving DecidableEq, Repr

/-- pick_latest (extraction_data.py lines 271-276): max(records, key=
timestamp_ms) on a non-empty list, None on an empty one.  Python max keeps
the current maximum and replaces it only on a strictly larger key, so the
first of several tied maxima wins. -/
def pyMaxStep (best x : ObsRec) : ObsRec :=
  if best.timestamp_ms < x.timestamp_ms then x else best

def pick_latest (records : List ObsRec) : Option ObsRec :=
  match records with
  | [] => none
  | r :: rs => some (rs.foldl pyMaxStep r)

/-- The fixed analysis window length (DAYS = 32). -/
def DAYS : ℕ := 32

/-- An observation store: entity and day-number index zero or more raw
records (a missing bucket is the empty list, matching dict.get defaults). -/
def ObsStore : Type := String → ℤ → List ObsRec

/-- One aligned day entry built by build_comparison (lines 302-358):
artemis from the bucket at date, hyperliquid from the bucket at the
previous day, raw diff from the two selected values. -/
def buildEntry (artBucket hlBucket : List ObsRec) (date : ℤ) : DayEntry :=
  let artLatest := pick_latest artBucket
  let hlLatest := pick_latest hlBucket
  let artValue := artLatest.map fun r => r.account_value
  let hlValue := hlLatest.map fun r => r.account_value
  { date := date
    artemis :=
      { value := artValue
        last_timestamp := artLatest.map fun r => r.timestamp_ms }
    hyperliquid :=
      { value := hlValue
        last_timestamp := hlLatest.map fun r => r.timestamp_ms
        source_date := some (date - 1) }
    diff := mkDiff artValue hlValue }

/-- One address block of the output. -/
structure AddrBlock where
  address : String
  series : List DayEntry
  deriving Repr

/-- build_comparison (lines 279-366): for every address, one entry per
date of the window [start, start + DAYS - 1], the hyperliquid side
resolved from the bucket one day earlier. -/
def build_comparison (start : ℤ) (addresses : List String)
    (artemis hyperliquid : ObsStore) : List AddrBlock :=
  addresses.map fun addr =>
    { address := addr
      series := (List.range DAYS).map fun i : ℕ =>
        buildEntry (artemis addr (start + (i : ℤ)))
          (hyperliquid addr (start + (i : ℤ) - 1)) (start + (i : ℤ)) }

/-- The date filter of fetch_hyperliquid_data (lines 250-254): keep a
point whose date is neither before START - 1 day (the look-back margin)
nor after END = START + DAYS - 1. -/
def hlFilterKeep (start d : ℤ) : Bool :=
  !(decide (d < start - 1) || decide (d > start + (DAYS - 1 : ℕ)))

/-! ## Distribution reporter (analysis.py) -/

/-- The fixed bucket table (analysis.py lines 13-24); none as upper bound
models float("inf"). -/
def BUCKETS : List (String × ℚ × Option ℚ) :=
  [("OK (< 0.5%)", 0, some (1 / 2)),
   ("0.5% – 1%", 1 / 2, some 1),
   ("1% – 5%", 1, some 5),
   ("5% – 10%", 5, some 10),
   ("10% – 25%", 10, some 25),
   ("25% – 50%", 25, some 50),
   ("50% – 100%", 50, some 100),
   ("100% – 250%", 100, some 250),
   ("250% – 500%", 250, some 500),
   ("> 500%", 500, none)]

/-- Membership test lo <= pct < hi of one bucket row. -/
def inBucket (p : ℚ) (b : String × ℚ × Option ℚ) : Bool :=
  decide (b.2.1 ≤ p) &&
    match b.2.2 with
    | some hi => decide (p < hi)
    | none => true

/-- The first-match bucket scan with break (analysis.py lines 62-65). -/
def bucketOf (p : ℚ) : Option String := (BUCKETS.find? (inBucket p)).map Prod.fst

/-- Days skipped as "missing" by analyse (lines 45-47): null pct. -/
def missingCount (diffs : List Diff) : ℕ :=
  diffs.countP fun d => decide (d.pct = none)

/-- all_points (lines 49-60): the days that survive the null-pct skip, in
order. -/
def allPoints (diffs : List Diff) : List Diff :=
  diffs.filter fun d => decide (d.pct ≠ none)

/-- Bucket counter: how many surviving points land in a given bucket
label. -/
def bucketCount (diffs : List Diff) (label : String) : ℕ :=
  (allPoints diffs).countP fun d =>
    match d.pct with
    | some p => decide (bucketOf p = some label)
    | none => false

/-- per_address_mismatches membership (lines 67-68): surviving points with
a falsy match (Python: None or False). -/
def mismatchPoints (diffs : List Diff) : List Diff :=
  (allPoints diffs).filter fun d =>
    match d.isMatch with
    | some b => !b
    | none => true

/-! ## Concrete inputs used by witnesses and counterexamples -/

def c8recs : List ObsRec := [⟨100, 1⟩, ⟨50, 2⟩, ⟨300, 3⟩]

def c4day : DayEntry :=
  { date := 0
    artemis := { value := some 5, last_timestamp := none }
    hyperliquid := { value := some 7, last_timestamp := some 3, source_date := some (-1) }
    diff := mkDiff (some 5) (some 7) }

def c1day : DayEntry :=
  { date := 2
    artemis := { value := some 1000000, last_timestamp := some 10 }
    hyperliquid :=
      { value := some 990000, last_timestamp := some 1, source_date := some 1 }
    diff := mkDiff (some 1000000) (some 990000) }

def c1flows : List (ℤ × ℚ) := [(5, 10000)]

/-- Joint nullity of a Diff record: the three fields are all null or all
populated (spec section 3 invariant). -/
def diffConsistent (d : Diff) : Prop :=
  (d.abs = none ∧ d.pct = none ∧ d.isMatch = none) ∨
  (d.abs ≠ none ∧ d.pct ≠ none ∧ d.isMatch ≠ none)

def c5day : DayEntry :=
  { date := 0
    artemis := { value := some 1, last_timestamp := some 10 }
    hyperliquid :=
      { value := some (10000001/10000000), last_timestamp := some 5,
        source_date := some (-1) }
    diff := mkDiff (some 1) (some (10000001/10000000)) }

def c10day : DayEntry :=
  { date := 7
    artemis := { value := some 20, last_timestamp := some 40 }
    hyperliquid :=
      { value := some 8, last_timestamp := some 30, source_date := some 6 }
    diff := mkDiff (some 20) (some 8) }

def c10flows : List (ℤ × ℚ) := [(35, 4)]

def c3event : JVal :=
  .obj [("time", .num 5), ("delta", .obj [("type", .str "rewardsClaim")])]

def c6event1 : JVal :=
  .obj [("time", .num 5),
    ("delta", .obj [("type", .str "deposit"), ("usdc", .num 3)])]

def c6event2 : JVal :=
  .obj [("delta", .obj [("usdc", .num 3), ("type", .str "deposit")]),
    ("time", .num 5)]

theorem lexLe_total (a b : List Char) : lexLe a b = true ∨ lexLe b a = true := by
  induction a generalizing b with
  | nil => left; rfl
  | cons c cs ih =>
    cases b with
    | nil => right; rfl
    | cons d ds =>
      rcases Nat.lt_trichotomy c.toNat d.toNat with h | h | h
      · left; simp [lexLe, h]
      · rcases ih ds with h2 | h2
        · left; simp [lexLe, h, h2]
        · right; simp [lexLe, h.symm, h2]
      · right; simp [lexLe, h]

theorem lexLe_trans {a b c : List Char} (h1 : lexLe a b = true)
    (h2 : lexLe b c = true) : lexLe a c = true := by
  induction a generalizing b c with
  | nil => rfl
  | cons x xs ih =>
    cases b with
    | nil => simp [lexLe] at h1
    | cons y ys =>
      cases c with
      | nil => simp [lexLe] at h2
      | cons z zs =>
        simp only [lexLe] at h1 h2 ⊢
        split_ifs at h1 h2 ⊢ with p1 p2 p3 p4 p5 p6 <;>
          first
            | rfl
            | omega
            | (exact ih h1 h2)

theorem lexLe_antisymm {a b : List Char} (h1 : lexLe a b = true)
    (h2 : lexLe b a = true) : a = b := by
  induction a generalizing b with
  | nil =>
    cases b with
    | nil => rfl
    | cons y ys => simp [lexLe] at h2
  | cons x xs ih =>
    cases b with
    | nil => simp [lexLe] at h1
    | cons y ys =>
      rcases Nat.lt_trichotomy x.toNat y.toNat with h | h | h
      · exfalso
        have hyx : ¬ y.toNat < x.toNat := by omega
        simp only [lexLe] at h2
        rw [if_neg hyx, if_pos h] at h2
        exact absurd h2 (by simp)
      · have hxy : ¬ x.toNat < y.toNat := by omega
        have hyx : ¬ y.toNat < x.toNat := by omega
        simp only [lexLe] at h1 h2
        rw [if_neg hxy, if_neg hyx] at h1
        rw [if_neg hyx, if_neg hxy] at h2
        have hx : x = y := Char.eq_of_val_eq (UInt32.ext h)
        rw [hx, ih h1 h2]
      · exfalso
        have hxy : ¬ x.toNat < y.toNat := by omega
        simp only [lexLe] at h1
        rw [if_neg hxy, if_pos h] at h1
        exact absurd h1 (by simp)

theorem keyLe_total (a b : String) : keyLe a b = true ∨ keyLe b a = true :=
  lexLe_total a.data b.data

theorem keyLe_trans {a b c : String} (h1 : keyLe a b = true)
    (h2 : keyLe b c = true) : keyLe a c = true :=
  lexLe_trans h1 h2

theorem keyLe_antisymm {a b : String} (h1 : keyLe a b = true)
    (h2 : keyLe b a = true) : a = b := by
  have h3 := lexLe_antisymm h1 h2
  cases a; cases b; simp_all

@[simp] theorem canon_num (q : ℚ) : canon (.num q) = .num q := by simp [canon]

@[simp] theorem canon_str (s : String) : canon (.str s) = .str s := by simp [canon]

@[simp] theorem canon_bool (b : Bool) : canon (.bool b) = .bool b := by simp [canon]

@[simp] theorem canon_null : canon .null = .null := by simp [canon]

instance : IsTotal (String × JVal) fieldLe := ⟨fun a b => keyLe_total a.1 b.1⟩

instance : IsTrans (String × JVal) fieldLe := ⟨fun _ _ _ => keyLe_trans⟩

theorem canon_arr (xs : List JVal) :
    canon (.arr xs) = .arr (xs.map canon) := by
  rw [canon]
  congr 1
  exact List.attach_map_coe xs canon

theorem canon_obj (fs : List (String × JVal)) :
    canon (.obj fs) =
      .obj (List.insertionSort fieldLe (fs.map fun kv => (kv.1, canon kv.2))) := by
  rw [canon]
  congr 1
  exact congrArg _ (List.attach_map_coe fs fun kv => (kv.1, canon kv.2))

/-! ## Canonicalization lemmas -/

theorem find?_key_of_perm {l l2 : List (String × JVal)} (h : l.Perm l2)
    (k : String) :
    (l.map Prod.fst).Nodup →
      (l.find? fun kv => kv.1 == k) = l2.find? fun kv => kv.1 == k := by
  induction h with
  | nil => intro _; rfl
  | cons x h ih =>
    intro hnd
    simp only [List.map_cons, List.nodup_cons] at hnd
    by_cases hx : x.1 = k
    · rw [List.find?_cons_of_pos _ (by simp [hx]), List.find?_cons_of_pos _ (by simp [hx])]
    · rw [List.find?_cons_of_neg _ (by simp [hx]), List.find?_cons_of_neg _ (by simp [hx])]
      exact ih hnd.2
  | swap a b l =>
    intro hnd
    simp only [List.map_cons, List.nodup_cons, List.mem_cons] at hnd
    have hab : b.1 ≠ a.1 := fun e => hnd.1 (Or.inl e)
    by_cases ha : a.1 = k <;> by_cases hb : b.1 = k
    · exact absurd (hb.trans ha.symm) hab
    · rw [List.find?_cons_of_neg _ (by simp [hb]), List.find?_cons_of_pos _ (by simp [ha]),
        List.find?_cons_of_pos _ (by simp [ha])]
    · rw [List.find?_cons_of_pos _ (by simp [hb]), List.find?_cons_of_neg _ (by simp [ha]),
        List.find?_cons_of_pos _ (by simp [hb])]
    · rw [List.find?_cons_of_neg _ (by simp [hb]), List.find?_cons_of_neg _ (by simp [ha]),
        List.find?_cons_of_neg _ (by simp [ha]), List.find?_cons_of_neg _ (by simp [hb])]
  | trans h1 h2 ih1 ih2 =>
    intro hnd
    have hnd2 := ((h1.map Prod.fst).nodup_iff).mp hnd
    exact (ih1 hnd).trans (ih2 hnd2)

theorem getField_canon (v : JVal) (hnd : topKeysNodup v) (k : String) :
    getField (canon v) k = (getField v k).map canon := by
  cases v with
  | num q => simp [getField]
  | str s => simp [getField]
  | bool b => simp [getField]
  | null => simp [getField]
  | arr xs => rw [canon_arr]; simp [getField]
  | obj fs =>
    rw [canon_obj]
    simp only [getField]
    have hnd2 : (((fs.map fun kv => (kv.1, canon kv.2)).map Prod.fst)).Nodup := by
      simp only [List.map_map]
      exact hnd
    have hperm :
        (List.insertionSort fieldLe (fs.map fun kv => (kv.1, canon kv.2))).Perm
          (fs.map fun kv => (kv.1, canon kv.2)) :=
      List.perm_insertionSort _ _
    have hnd3 :
        (((List.insertionSort fieldLe (fs.map fun kv => (kv.1, canon kv.2))).map
          Prod.fst)).Nodup :=
      ((hperm.map Prod.fst).nodup_iff).mpr hnd2
    rw [find?_key_of_perm hperm k hnd3, List.find?_map]
    have hp : ((fun kv : String × JVal => kv.1 == k) ∘
        fun kv : String × JVal => (kv.1, canon kv.2)) = fun kv => kv.1 == k := rfl
    rw [hp]
    cases hf : fs.find? fun kv => kv.1 == k with
    | none => simp
    | some kv => simp

theorem map_canon_eq_str {o : Option JVal} {s : String} :
    o.map canon = some (.str s) ↔ o = some (.str s) := by
  cases o with
  | none => simp
  | some v => cases v <;> simp [canon_arr, canon_obj]

theorem asFloat_canon (v : JVal) : asFloat (canon v) = asFloat v := by
  cases v <;> simp [asFloat, canon_arr, canon_obj]

theorem insertionSort_eq_nil_iff {α : Type} {r : α → α → Prop} [DecidableRel r]
    {l : List α} : List.insertionSort r l = [] ↔ l = [] := by
  constructor
  · intro h
    have := (List.perm_insertionSort r l).length_eq
    rw [h] at this
    exact List.length_eq_zero.mp this.symm
  · intro h; rw [h]; rfl

theorem truthy_canon (o : Option JVal) : truthy (o.map canon) = truthy o := by
  cases o with
  | none => rfl
  | some v =>
    rw [Option.map_some']
    cases v with
    | num q => rw [canon_num]
    | str s => rw [canon_str]
    | bool b => rw [canon_bool]
    | null => rw [canon_null]
    | arr xs =>
      rw [canon_arr]
      simp [truthy, List.map_eq_nil_iff]
    | obj fs =>
      rw [canon_obj]
      simp [truthy, insertionSort_eq_nil_iff, List.map_eq_nil_iff]

theorem strFieldEq_congr {d1 d2 : JVal}
    (hd : ∀ k, getField d1 k = (getField d2 k).map canon) (k s : String) :
    strFieldEq d1 k s = strFieldEq d2 k s := by
  unfold strFieldEq
  rw [hd k]
  cases getField d2 k with
  | none => rfl
  | some v => cases v <;> simp [canon_arr, canon_obj]

theorem amtOrZero_congr {d1 d2 : JVal}
    (hd : ∀ k, getField d1 k = (getField d2 k).map canon) (k : String) :
    amtOrZero d1 k = amtOrZero d2 k := by
  unfold amtOrZero
  rw [hd k]
  cases getField d2 k with
  | none => rfl
  | some v => simp [asFloat_canon]

theorem sendAmt_congr {d1 d2 : JVal}
    (hd : ∀ k, getField d1 k = (getField d2 k).map canon) :
    sendAmt d1 = sendAmt d2 := by
  unfold sendAmt
  rw [hd "usdcValue"]
  cases getField d2 "usdcValue" with
  | none => simp [amtOrZero_congr hd]
  | some v => simp [asFloat_canon]

theorem flowsAt_congr {d1 d2 : JVal}
    (hd : ∀ k, getField d1 k = (getField d2 k).map canon) (t : ℤ) :
    flowsAt t d1 = flowsAt t d2 := by
  unfold flowsAt
  rw [hd "type", hd "usdc", hd "toPerp"]
  rw [amtOrZero_congr hd "amount", amtOrZero_congr hd "usdc",
    sendAmt_congr hd, strFieldEq_congr hd "sourceDex" "",
    strFieldEq_congr hd "destinationDex" "spot",
    strFieldEq_congr hd "sourceDex" "spot",
    strFieldEq_congr hd "destinationDex" ""]
  simp only [map_canon_eq_str]
  cases getField d2 "usdc" with
  | none => simp [truthy_canon]
  | some v => simp [asFloat_canon, truthy_canon]

theorem flowsOfEvent_canon (ev : JVal) (h : evWf ev) :
    flowsOfEvent (canon ev) = flowsOfEvent ev := by
  unfold flowsOfEvent deltaOf
  rw [getField_canon ev h.1 "time", getField_canon ev h.1 "delta"]
  cases ht : getField ev "time" with
  | none => rfl
  | some t =>
    rw [Option.map_some']
    cases t with
    | num q =>
      rw [canon_num]
      cases hd : getField ev "delta" with
      | none => rfl
      | some d =>
        rw [Option.map_some', Option.getD_some, Option.getD_some]
        exact flowsAt_congr (fun k => getField_canon d (h.2 d hd) k) (pyTrunc q)
    | str s => rw [canon_str]
    | bool b => rw [canon_bool]
    | null => rw [canon_null]
    | arr xs => rw [canon_arr]
    | obj fs => rw [canon_obj]

/-! ## Deduplication lemmas -/

theorem dedupStep_map_canon_of_any {acc : List JVal} {e : JVal}
    (h : (acc.any fun x => decide (canon x = canon e)) = true) :
    (dedupStep acc e).map canon = acc.map canon := by
  unfold dedupStep
  rw [if_pos h, List.map_map]
  apply List.map_congr_left
  intro x _
  by_cases hx : canon x = canon e
  · simp [Function.comp, hx]
  · simp [Function.comp, hx]

theorem dedupStep_map_canon_of_not_any {acc : List JVal} {e : JVal}
    (h : ¬ (acc.any fun x => decide (canon x = canon e)) = true) :
    (dedupStep acc e).map canon = acc.map canon ++ [canon e] := by
  unfold dedupStep
  rw [if_neg h, List.map_append]
  rfl

theorem dedupStep_canon_nodup {acc : List JVal} (e : JVal)
    (h : (acc.map canon).Nodup) : ((dedupStep acc e).map canon).Nodup := by
  by_cases hc : (acc.any fun x => decide (canon x = canon e)) = true
  · rw [dedupStep_map_canon_of_any hc]; exact h
  · rw [dedupStep_map_canon_of_not_any hc]
    rw [List.nodup_append]
    refine ⟨h, List.nodup_singleton _, ?_⟩
    intro c hcmem
    simp only [List.mem_singleton]
    intro he
    apply hc
    rw [List.any_eq_true]
    rcases List.mem_map.mp hcmem with ⟨x, hx, hcx⟩
    exact ⟨x, hx, by simp [hcx, he]⟩

theorem dedupStep_mem {acc : List JVal} {e x : JVal}
    (h : x ∈ dedupStep acc e) : x ∈ acc ∨ x = e := by
  unfold dedupStep at h
  split_ifs at h with hc
  · rcases List.mem_map.mp h with ⟨y, hy, hyx⟩
    by_cases hye : canon y = canon e
    · right; rw [if_pos hye] at hyx; exact hyx.symm
    · left; rw [if_neg hye] at hyx; exact hyx ▸ hy
  · rcases List.mem_append.mp h with h2 | h2
    · exact Or.inl h2
    · exact Or.inr (List.mem_singleton.mp h2)

theorem dedupStep_covers_old {acc : List JVal} (e : JVal) {c : JVal}
    (h : c ∈ acc.map canon) : c ∈ (dedupStep acc e).map canon := by
  by_cases hc : (acc.any fun x => decide (canon x = canon e)) = true
  · rw [dedupStep_map_canon_of_any hc]; exact h
  · rw [dedupStep_map_canon_of_not_any hc]; exact List.mem_append_left _ h

theorem dedupStep_covers_new (acc : List JVal) (e : JVal) :
    canon e ∈ (dedupStep acc e).map canon := by
  by_cases hc : (acc.any fun x => decide (canon x = canon e)) = true
  · rw [dedupStep_map_canon_of_any hc]
    rcases List.any_eq_true.mp hc with ⟨x, hx, hxe⟩
    rw [decide_eq_true_eq] at hxe
    exact List.mem_map.mpr ⟨x, hx, hxe⟩
  · rw [dedupStep_map_canon_of_not_any hc]
    exact List.mem_append_right _ (List.mem_singleton.mpr rfl)

theorem dedup_foldl_inv (l : List JVal) :
    ∀ acc : List JVal, (acc.map canon).Nodup →
      ((l.foldl dedupStep acc).map canon).Nodup ∧
      (∀ x ∈ l.foldl dedupStep acc, x ∈ acc ∨ x ∈ l) ∧
      (∀ c ∈ acc.map canon, c ∈ (l.foldl dedupStep acc).map canon) ∧
      (∀ e ∈ l, canon e ∈ (l.foldl dedupStep acc).map canon) := by
  induction l with
  | nil =>
    intro acc h
    exact ⟨h, fun x hx => Or.inl hx, fun c hc => hc, fun e he => absurd he (by simp)⟩
  | cons e es ih =>
    intro acc h
    rw [List.foldl_cons]
    rcases ih (dedupStep acc e) (dedupStep_canon_nodup e h) with ⟨i1, i2, i3, i4⟩
    refine ⟨i1, ?_, ?_, ?_⟩
    · intro x hx
      rcases i2 x hx with h2 | h2
      · rcases dedupStep_mem h2 with h3 | h3
        · exact Or.inl h3
        · exact Or.inr (h3 ▸ List.mem_cons_self _ _)
      · exact Or.inr (List.mem_cons_of_mem _ h2)
    · intro c hc
      exact i3 c (dedupStep_covers_old e hc)
    · intro x hx
      rcases List.mem_cons.mp hx with h2 | h2
      · exact h2 ▸ i3 _ (dedupStep_covers_new acc e)
      · exact i4 x h2

theorem dedup_canon_nodup (l : List JVal) : ((dedup l).map canon).Nodup :=
  (dedup_foldl_inv l [] (by simp)).1

theorem dedup_subset {l : List JVal} {x : JVal} (h : x ∈ dedup l) : x ∈ l := by
  rcases (dedup_foldl_inv l [] (by simp)).2.1 x h with h2 | h2
  · exact absurd h2 (by simp)
  · exact h2

theorem dedup_covers {l : List JVal} {e : JVal} (h : e ∈ l) :
    canon e ∈ (dedup l).map canon :=
  (dedup_foldl_inv l [] (by simp)).2.2.2 e h

theorem dedup_countP_one {l : List JVal} {e : JVal} (h : e ∈ l) :
    ((dedup l).countP fun x => decide (canon x = canon e)) = 1 := by
  have h1 : List.count (canon e) ((dedup l).map canon) = 1 :=
    List.count_eq_one_of_mem (dedup_canon_nodup l) (dedup_covers h)
  rw [List.count, List.countP_map] at h1
  exact h1

theorem dedup_map_canon_congr {l1 l2 : List JVal}
    (h : l1.map canon = l2.map canon) :
    (dedup l1).map canon = (dedup l2).map canon := by
  suffices hgen : ∀ (l1 l2 acc1 acc2 : List JVal), l1.map canon = l2.map canon →
      acc1.map canon = acc2.map canon →
      (l1.foldl dedupStep acc1).map canon = (l2.foldl dedupStep acc2).map canon by
    exact hgen l1 l2 [] [] h rfl
  intro l1
  induction l1 with
  | nil =>
    intro l2 acc1 acc2 hl hacc
    cases l2 with
    | nil => exact hacc
    | cons b bs => exact absurd hl (by simp)
  | cons a as ih =>
    intro l2 acc1 acc2 hl hacc
    cases l2 with
    | nil => exact absurd hl (by simp)
    | cons b bs =>
      simp only [List.map_cons, List.cons.injEq] at hl
      rw [List.foldl_cons, List.foldl_cons]
      apply ih bs _ _ hl.2
      have hany : (acc1.any fun x => decide (canon x = canon a)) =
          (acc2.any fun x => decide (canon x = canon b)) := by
        rw [Bool.eq_iff_iff]
        simp only [List.any_eq_true, decide_eq_true_eq]
        constructor
        · rintro ⟨x, hx, he⟩
          have : canon x ∈ acc2.map canon := by
            rw [← hacc]; exact List.mem_map_of_mem canon hx
          rcases List.mem_map.mp this with ⟨y, hy, hyx⟩
          exact ⟨y, hy, by rw [hyx, he, hl.1]⟩
        · rintro ⟨x, hx, he⟩
          have : canon x ∈ acc1.map canon := by
            rw [hacc]; exact List.mem_map_of_mem canon hx
          rcases List.mem_map.mp this with ⟨y, hy, hyx⟩
          exact ⟨y, hy, by rw [hyx, he, hl.1]⟩
      by_cases hc : (acc1.any fun x => decide (canon x = canon a)) = true
      · rw [dedupStep_map_canon_of_any hc,
          dedupStep_map_canon_of_any (hany ▸ hc), hacc]
      · rw [dedupStep_map_canon_of_not_any hc,
          dedupStep_map_canon_of_not_any (fun hcc => hc (hany ▸ hcc)), hacc, hl.1]

/-! ## Field order invariance and flow-list determinism -/

theorem flowsOfEvent_of_canon_eq {a b : JVal} (ha : evWf a) (hb : evWf b)
    (h : canon a = canon b) : flowsOfEvent a = flowsOfEvent b := by
  rw [← flowsOfEvent_canon a ha, ← flowsOfEvent_canon b hb, h]

theorem flatMap_flows_congr :
    ∀ {l1 l2 : List JVal}, (∀ x ∈ l1, evWf x) → (∀ x ∈ l2, evWf x) →
      l1.map canon = l2.map canon →
      l1.flatMap flowsOfEvent = l2.flatMap flowsOfEvent := by
  intro l1
  induction l1 with
  | nil =>
    intro l2 _ _ hc
    cases l2 with
    | nil => rfl
    | cons b bs => exact absurd hc (by simp)
  | cons a as ih =>
    intro l2 h1 h2 hc
    cases l2 with
    | nil => exact absurd hc (by simp)
    | cons b bs =>
      simp only [List.map_cons, List.cons.injEq] at hc
      rw [List.flatMap_cons, List.flatMap_cons]
      rw [flowsOfEvent_of_canon_eq (h1 a (by simp)) (h2 b (by simp)) hc.1]
      rw [ih (fun x hx => h1 x (List.mem_cons_of_mem _ hx))
        (fun x hx => h2 x (List.mem_cons_of_mem _ hx)) hc.2]

theorem eq_of_perm_of_sorted_keys :
    ∀ {l1 l2 : List (String × JVal)}, l1.Perm l2 → List.Sorted fieldLe l1 →
      List.Sorted fieldLe l2 → (l1.map Prod.fst).Nodup → l1 = l2 := by
  intro l1
  induction l1 with
  | nil =>
    intro l2 hp _ _ _
    exact (hp.nil_eq).symm ▸ rfl
  | cons a t1 ih =>
    intro l2 hp hs1 hs2 hnd
    cases l2 with
    | nil => exact absurd hp.symm.nil_eq (by simp)
    | cons b t2 =>
      have hab : a = b := by
        have hain : a ∈ b :: t2 := hp.mem_iff.mp (List.mem_cons_self _ _)
        have hbin : b ∈ a :: t1 := hp.mem_iff.mpr (List.mem_cons_self _ _)
        rcases List.mem_cons.mp hain with h1 | h1
        · exact h1
        rcases List.mem_cons.mp hbin with h2 | h2
        · exact h2.symm
        have hba : fieldLe b a := (List.sorted_cons.mp hs2).1 a h1
        have hab2 : fieldLe a b := (List.sorted_cons.mp hs1).1 b h2
        have hkey : a.1 = b.1 := keyLe_antisymm hab2 hba
        exfalso
        simp only [List.map_cons, List.nodup_cons] at hnd
        exact hnd.1 (hkey ▸ List.mem_map_of_mem Prod.fst h2)
      subst hab
      have hperm2 : t1.Perm t2 := hp.cons_inv
      rw [ih hperm2 (List.sorted_cons.mp hs1).2 (List.sorted_cons.mp hs2).2
        (by simp only [List.map_cons, List.nodup_cons] at hnd; exact hnd.2)]

/-- The canonical form of a dict does not depend on the order in which its
fields are listed: this is the sense in which two duplicate events
"differing only in field order" carry the same dedup key. -/
theorem canon_obj_perm {fs gs : List (String × JVal)} (h : fs.Perm gs)
    (hnd : (fs.map Prod.fst).Nodup) : canon (.obj fs) = canon (.obj gs) := by
  rw [canon_obj, canon_obj]
  congr 1
  have hperm : (fs.map fun kv => (kv.1, canon kv.2)).Perm
      (gs.map fun kv => (kv.1, canon kv.2)) := h.map _
  have hnd1 : ((fs.map fun kv => (kv.1, canon kv.2)).map Prod.fst).Nodup := by
    simp only [List.map_map]; exact hnd
  apply eq_of_perm_of_sorted_keys
  · exact (List.perm_insertionSort _ _).trans
      (hperm.trans (List.perm_insertionSort _ _).symm)
  · exact List.sorted_insertionSort fieldLe _
  · exact List.sorted_insertionSort fieldLe _
  · exact ((List.perm_insertionSort fieldLe _).map Prod.fst).nodup_iff.mpr hnd1

/-! ## Claim support lemmas -/

theorem pick_latest_foldl_mem (rs : List ObsRec) : ∀ r : ObsRec,
    rs.foldl pyMaxStep r = r ∨ rs.foldl pyMaxStep r ∈ rs := by
  induction rs with
  | nil => intro r; exact Or.inl rfl
  | cons y ys ih =>
    intro r
    rw [List.foldl_cons]
    rcases ih (pyMaxStep r y) with h | h
    · rw [h]
      unfold pyMaxStep
      split_ifs with hc
      · exact Or.inr (List.mem_cons_self _ _)
      · exact Or.inl rfl
    · exact Or.inr (List.mem_cons_of_mem _ h)

theorem pick_latest_foldl_init_le (rs : List ObsRec) : ∀ r : ObsRec,
    r.timestamp_ms ≤ (rs.foldl pyMaxStep r).timestamp_ms := by
  induction rs with
  | nil => intro r; exact le_refl _
  | cons y ys ih =>
    intro r
    rw [List.foldl_cons]
    refine le_trans ?_ (ih (pyMaxStep r y))
    unfold pyMaxStep
    split_ifs with h
    · omega
    · exact le_refl _

theorem pick_latest_foldl_le (rs : List ObsRec) : ∀ (r x : ObsRec), x ∈ rs →
    x.timestamp_ms ≤ (rs.foldl pyMaxStep r).timestamp_ms := by
  induction rs with
  | nil => intro r x hx; exact absurd hx (by simp)
  | cons y ys ih =>
    intro r x hx
    rw [List.foldl_cons]
    rcases List.mem_cons.mp hx with h | h
    · refine le_trans ?_ (pick_latest_foldl_init_le ys (pyMaxStep r y))
      subst h
      unfold pyMaxStep
      split_ifs with hc
      · exact le_refl _
      · omega
    · exact ih (pyMaxStep r y) x h

theorem countP_add_countP_not {α : Type} (p : α → Bool) (l : List α) :
    l.countP p + l.countP (fun a => !(p a)) = l.length := by
  induction l with
  | nil => rfl
  | cons a t ih =>
    by_cases h : p a = true
    · have h2 : (!(p a)) = false := by simp [h]
      simp [List.countP_cons, h, h2]
      omega
    · have h1 : p a = false := by simp at h; exact h
      have h2 : (!(p a)) = true := by simp [h1]
      simp [List.countP_cons, h1, h2]
      omega

theorem find?_of_filter_length_one {α : Type} {q : α → Bool} :
    ∀ {l : List α}, (l.filter q).length = 1 →
      ∃ b, b ∈ l ∧ q b = true ∧ l.find? q = some b := by
  intro l
  induction l with
  | nil => intro h; simp at h
  | cons a t ih =>
    intro h
    by_cases ha : q a = true
    · exact ⟨a, List.mem_cons_self _ _, ha, List.find?_cons_of_pos _ ha⟩
    · rw [List.filter_cons, if_neg (by simp [ha])] at h
      rcases ih h with ⟨b, hb1, hb2, hb3⟩
      exact ⟨b, List.mem_cons_of_mem _ hb1, hb2,
        (List.find?_cons_of_neg _ (by simp [ha])).trans hb3⟩

theorem roundTo_zero (dp : ℕ) : roundTo dp 0 = 0 := by
  rw [roundTo, rndHalfEven]
  norm_num

theorem netFlow_nil (s e : ℤ) : netFlow [] s e = 0 := rfl

theorem processAddress_error (series : List DayEntry) (e : Unit) :
    processAddress (.error e) series = series.map fallbackDay := by
  unfold processAddress
  split_ifs <;> rfl

theorem normalizeDay_fallback (flows : List (ℤ × ℚ)) (day : DayEntry)
    (h : day.hyperliquid.last_timestamp = none ∨
      day.artemis.last_timestamp = none ∨ day.hyperliquid.value = none) :
    normalizeDay flows day = fallbackDay day := by
  obtain ⟨dd, ⟨av, artTs, asd⟩, ⟨hv, hlTs, hsd⟩, df⟩ := day
  simp only [normalizeDay]
  rcases h with h | h | h <;> simp only at h <;> subst h
  · rfl
  · cases hlTs <;> rfl
  · cases hlTs <;> cases artTs <;> rfl

/-! ## Claim theorems -/

/-- C8: the Latest-Observation Selector returns, for every non-empty list of
timestamped records, a record of the list whose timestamp is maximal, and
returns none on the empty list.  (pick_latest is a pure function of its
argument, so it has no side effect on the input.) -/
theorem pick_latest_selects :
    pick_latest [] = none ∧
    ∀ l : List ObsRec, l ≠ [] →
      ∃ r, pick_latest l = some r ∧ r ∈ l ∧
        ∀ x ∈ l, x.timestamp_ms ≤ r.timestamp_ms := by
  refine ⟨rfl, ?_⟩
  intro l hl
  cases l with
  | nil => exact absurd rfl hl
  | cons r rs =>
    refine ⟨rs.foldl pyMaxStep r, rfl, ?_, ?_⟩
    · rcases pick_latest_foldl_mem rs r with h | h
      · rw [h]; exact List.mem_cons_self _ _
      · exact List.mem_cons_of_mem _ h
    · intro x hx
      rcases List.mem_cons.mp hx with h | h
      · exact h ▸ pick_latest_foldl_init_le rs r
      · exact pick_latest_foldl_le rs r x h

/-- Witness for C8 at the spec example timestamps [100, 50, 300]. -/
theorem pick_latest_selects_witness :
    ∃ r, pick_latest c8recs = some r ∧ r ∈ c8recs ∧
      ∀ x ∈ c8recs, x.timestamp_ms ≤ r.timestamp_ms :=
  pick_latest_selects.2 c8recs (by simp [c8recs])

/-- C4: normalization is a no-op fallback whenever the HL timestamp, the
Artemis timestamp or the HL value is missing; the fallback keeps the raw
value (absent stays absent), zero flow adjustment, zero events in gap and
copies the raw diff verbatim; a failed ledger fetch applies the fallback to
every day of that address; and a failing address does not disturb the
processing of the other address blocks. -/
theorem normalization_noop_fallback :
    (∀ (flows : List (ℤ × ℚ)) (day : DayEntry),
      day.hyperliquid.last_timestamp = none ∨ day.artemis.last_timestamp = none ∨
        day.hyperliquid.value = none →
      normalizeDay flows day = fallbackDay day) ∧
    (∀ day : DayEntry,
      (fallbackDay day).hyperliquid_normalized.value = day.hyperliquid.value ∧
      (fallbackDay day).hyperliquid_normalized.flow_adjustment = 0 ∧
      (fallbackDay day).hyperliquid_normalized.events_in_gap = 0 ∧
      (fallbackDay day).diff_normalized = day.diff ∧
      (day.hyperliquid.value = none →
        (fallbackDay day).hyperliquid_normalized.value = none)) ∧
    (∀ (series : List DayEntry) (e : Unit),
      processAddress (.error e) series = series.map fallbackDay) ∧
    (∀ (pre post : List (Except Unit (List JVal) × List DayEntry)) (e : Unit)
        (s : List DayEntry),
      processAll (pre ++ (Except.error e, s) :: post) =
        processAll pre ++ s.map fallbackDay :: processAll post) := by
  refine ⟨normalizeDay_fallback, ?_, processAddress_error, ?_⟩
  · intro day
    exact ⟨rfl, rfl, rfl, rfl, fun h => h⟩
  · intro pre post e s
    simp only [processAll, List.map_append, List.map_cons]
    rw [processAddress_error]

/-- Witness for C4 at a day whose Artemis timestamp is missing. -/
theorem normalization_noop_fallback_witness :
    normalizeDay [(4, 2)] c4day = fallbackDay c4day :=
  normalization_noop_fallback.1 [(4, 2)] c4day (Or.inr (Or.inl rfl))

/-- C1: for an aligned pair with both values and both timestamps present,
the flows used for normalization are exactly those in the window
(hl_ts, art_ts] (a flow at hl_ts is excluded, a flow at art_ts included),
the net flow is their signed sum, the normalized value stored and diffed
is the raw HL value plus that net flow, and flows outside the window
change neither the adjustment, nor the event count, nor anything else in
the normalized record. -/
theorem gap_normalizer_windowing (flows : List (ℤ × ℚ)) (day : DayEntry)
    (hlTs artTs : ℤ) (hlVal artVal : ℚ)
    (h1 : day.hyperliquid.last_timestamp = some hlTs)
    (h2 : day.artemis.last_timestamp = some artTs)
    (h3 : day.hyperliquid.value = some hlVal)
    (h4 : day.artemis.value = some artVal) :
    (∀ f : ℤ × ℚ, f ∈ gapFlows flows hlTs artTs ↔
      f ∈ flows ∧ hlTs < f.1 ∧ f.1 ≤ artTs) ∧
    (∀ f : ℤ × ℚ, (gapFlows flows hlTs artTs).count f =
      if hlTs < f.1 ∧ f.1 ≤ artTs then flows.count f else 0) ∧
    (∀ f ∈ flows, f.1 = hlTs → f ∉ gapFlows flows hlTs artTs) ∧
    (hlTs < artTs → ∀ f ∈ flows, f.1 = artTs → f ∈ gapFlows flows hlTs artTs) ∧
    netFlow flows hlTs artTs = ((gapFlows flows hlTs artTs).map Prod.snd).sum ∧
    (normalizeDay flows day).hyperliquid_normalized.flow_adjustment =
      roundTo 6 (netFlow flows hlTs artTs) ∧
    (normalizeDay flows day).hyperliquid_normalized.events_in_gap =
      (gapFlows flows hlTs artTs).length ∧
    (normalizeDay flows day).hyperliquid_normalized.value =
      some (roundTo 6 (hlVal + netFlow flows hlTs artTs)) ∧
    (normalizeDay flows day).diff_normalized =
      normDiff (some artVal) (hlVal + netFlow flows hlTs artTs) ∧
    (∀ (pre post : List (ℤ × ℚ)) (g : ℤ × ℚ), ¬(hlTs < g.1 ∧ g.1 ≤ artTs) →
      normalizeDay (pre ++ g :: post) day = normalizeDay (pre ++ post) day) := by
  have hmem : ∀ f : ℤ × ℚ, f ∈ gapFlows flows hlTs artTs ↔
      f ∈ flows ∧ hlTs < f.1 ∧ f.1 ≤ artTs := by
    intro f
    simp [gapFlows, List.mem_filter, and_assoc]
  refine ⟨hmem, ?_, ?_, ?_, rfl, ?_, ?_, ?_, ?_, ?_⟩
  · intro f
    by_cases hp : hlTs < f.1 ∧ f.1 ≤ artTs
    · rw [if_pos hp]
      exact List.count_filter (by simp [hp.1, hp.2])
    · rw [if_neg hp, List.count_eq_zero]
      intro hmem2
      exact hp ((hmem f).mp hmem2).2
  · intro f hf hts hmem2
    rcases ((hmem f).mp hmem2).2 with ⟨hlt, _⟩
    omega
  · intro hlt f hf hts
    exact (hmem f).mpr ⟨hf, by omega, by omega⟩
  · simp [normalizeDay, h1, h2, h3]
  · simp [normalizeDay, h1, h2, h3]
  · simp [normalizeDay, h1, h2, h3]
  · simp [normalizeDay, h1, h2, h3, h4]
  · intro pre post g hg
    have hcond : (decide (hlTs < g.1) && decide (g.1 ≤ artTs)) = false := by
      rcases not_and_or.mp hg with hh | hh
      · simp [hh]
      · simp [hh]
    have hgap : gapFlows (pre ++ g :: post) hlTs artTs =
        gapFlows (pre ++ post) hlTs artTs := by
      simp only [gapFlows, List.filter_append, List.filter_cons, hcond]
      simp
    have hnet : netFlow (pre ++ g :: post) hlTs artTs =
        netFlow (pre ++ post) hlTs artTs := by
      rw [netFlow, netFlow, hgap]
    simp only [normalizeDay, h1, h2, h3, hgap, hnet]

/-- Witness for C1 at the end-to-end scenario of the spec: a 10,000 deposit
flow at time 5 inside the gap (1, 10]. -/
theorem gap_normalizer_windowing_witness :
    (∀ f : ℤ × ℚ, f ∈ gapFlows c1flows 1 10 ↔
      f ∈ c1flows ∧ 1 < f.1 ∧ f.1 ≤ 10) ∧
    (∀ f : ℤ × ℚ, (gapFlows c1flows 1 10).count f =
      if 1 < f.1 ∧ f.1 ≤ 10 then c1flows.count f else 0) ∧
    (∀ f ∈ c1flows, f.1 = 1 → f ∉ gapFlows c1flows 1 10) ∧
    ((1 : ℤ) < 10 → ∀ f ∈ c1flows, f.1 = 10 → f ∈ gapFlows c1flows 1 10) ∧
    netFlow c1flows 1 10 = ((gapFlows c1flows 1 10).map Prod.snd).sum ∧
    (normalizeDay c1flows c1day).hyperliquid_normalized.flow_adjustment =
      roundTo 6 (netFlow c1flows 1 10) ∧
    (normalizeDay c1flows c1day).hyperliquid_normalized.events_in_gap =
      (gapFlows c1flows 1 10).length ∧
    (normalizeDay c1flows c1day).hyperliquid_normalized.value =
      some (roundTo 6 (990000 + netFlow c1flows 1 10)) ∧
    (normalizeDay c1flows c1day).diff_normalized =
      normDiff (some 1000000) (990000 + netFlow c1flows 1 10) ∧
    (∀ (pre post : List (ℤ × ℚ)) (g : ℤ × ℚ), ¬(1 < g.1 ∧ g.1 ≤ 10) →
      normalizeDay (pre ++ g :: post) c1day = normalizeDay (pre ++ post) c1day) :=
  gap_normalizer_windowing c1flows c1day 1 10 990000 1000000 rfl rfl rfl rfl

theorem diffConsistent_mkDiff (a b : Option ℚ) : diffConsistent (mkDiff a b) := by
  cases a <;> cases b <;> simp [mkDiff, diffConsistent]

theorem diffConsistent_normDiff (v : Option ℚ) (x : ℚ) :
    diffConsistent (normDiff v x) := by
  cases v <;> simp [normDiff, diffConsistent]

/-- C5 counterexample: with an empty flow list the normalized Diff is NOT
verbatim equal to the raw Diff: the raw abs 1/10^7 is stored unrounded by
build_comparison, while the normalization pass rounds the recomputed abs
to 6 decimals, giving 0. -/
theorem c5_rounded_abs_breaks_verbatim_equality :
    (normalizeDay [] c5day).hyperliquid_normalized.flow_adjustment = 0 ∧
    (normalizeDay [] c5day).diff_normalized ≠ c5day.diff := by
  have e1 : (normalizeDay [] c5day).diff_normalized.abs = some 0 := by
    show (normDiff (some 1) (10000001/10000000 + netFlow [] 5 10)).abs = some 0
    have h : (1:ℚ) - (10000001/10000000 + netFlow [] 5 10) = -(1/10000000) := by
      norm_num [netFlow, gapFlows]
    simp only [normDiff, h, abs_neg]
    norm_num [roundTo, rndHalfEven, abs_div]
  have e2 : c5day.diff.abs = some (1/10000000) := by
    show (mkDiff (some 1) (some (10000001/10000000))).abs = some (1/10000000)
    simp only [mkDiff]
    congr 1
    rw [show (1:ℚ) - 10000001/10000000 = -(1/10000000) by norm_num, abs_neg,
      abs_div]
    norm_num
  have e3 : c5day.diff.abs ≠ some 0 := by
    rw [e2]
    intro hcon
    have := Option.some.inj hcon
    norm_num at this
  constructor
  · show roundTo 6 (netFlow [] 5 10) = 0
    norm_num [netFlow, gapFlows, roundTo, rndHalfEven]
  · intro heq
    exact e3 (heq ▸ e1)

/-- C5 amended: normalizing a pair (both values, both timestamps present,
raw diff as built by build_comparison) against an empty flow list yields
flow_adjustment = 0 and a normalized Diff with the same pct and the same
match as the raw Diff; its abs is the raw abs rounded to 6 decimals (so
equal to the raw abs exactly when that value has at most 6 decimals). -/
theorem gap_normalizer_empty_ledger (day : DayEntry) (hlTs artTs : ℤ)
    (hlVal artVal : ℚ)
    (h1 : day.hyperliquid.last_timestamp = some hlTs)
    (h2 : day.artemis.last_timestamp = some artTs)
    (h3 : day.hyperliquid.value = some hlVal)
    (h4 : day.artemis.value = some artVal)
    (h5 : day.diff = mkDiff day.artemis.value day.hyperliquid.value) :
    (normalizeDay [] day).hyperliquid_normalized.flow_adjustment = 0 ∧
    (normalizeDay [] day).diff_normalized.pct = day.diff.pct ∧
    (normalizeDay [] day).diff_normalized.isMatch = day.diff.isMatch ∧
    (normalizeDay [] day).diff_normalized.abs = day.diff.abs.map (roundTo 6) := by
  have hnet : netFlow [] hlTs artTs = 0 := rfl
  have hval : hlVal + netFlow [] hlTs artTs = hlVal := by rw [hnet, add_zero]
  refine ⟨?_, ?_, ?_, ?_⟩ <;>
    simp only [normalizeDay, h1, h2, h3, h4, h5, hnet, hval, add_zero, normDiff,
      mkDiff, roundTo_zero, Option.map_some']

/-- Witness for the amended C5 at the end-to-end scenario pair. -/
theorem gap_normalizer_empty_ledger_witness :
    (normalizeDay [] c1day).hyperliquid_normalized.flow_adjustment = 0 ∧
    (normalizeDay [] c1day).diff_normalized.pct = c1day.diff.pct ∧
    (normalizeDay [] c1day).diff_normalized.isMatch = c1day.diff.isMatch ∧
    (normalizeDay [] c1day).diff_normalized.abs = c1day.diff.abs.map (roundTo 6) :=
  gap_normalizer_empty_ledger c1day 1 10 990000 1000000 rfl rfl rfl rfl rfl

/-- C2 counterexample: a stored record on which match does NOT mirror the
stored pct: the exact pct 0.49996 rounds up to the stored 0.5000, while
match was decided on the unrounded value, so the record shows pct = 0.5
with match = true although 0.5 < 0.5 fails. -/
theorem c2_stored_pct_match_mismatch :
    (mkDiff (some 100000) (some (2487501/25))).pct = some (1/2) ∧
    (mkDiff (some 100000) (some (2487501/25))).isMatch = some true ∧
    ¬ ((1:ℚ)/2 < THRESHOLD) := by
  have hp : pctExact 100000 (2487501/25) = 12499/25000 := by
    norm_num [pctExact, abs_div,
      max_eq_left (show |(2487501:ℚ)|/|25| ≤ 100000 by norm_num)]
  refine ⟨?_, ?_, by norm_num [THRESHOLD]⟩
  · show some (roundTo 4 (pctExact 100000 (2487501/25))) = some (1/2)
    rw [hp]
    norm_num [roundTo, rndHalfEven]
  · show some (decide (pctExact 100000 (2487501/25) < THRESHOLD)) = some true
    rw [hp]
    simp only [Option.some.injEq, decide_eq_true_eq, THRESHOLD]
    norm_num

/-- C2 amended: abs, exact pct and match are computed as the claim states,
with match decided on the UNROUNDED pct (the stored pct is its 4-decimal
rounding, so match need not mirror the stored pct, see the counterexample);
absent values null every field; every produced Diff, raw or normalized, is
jointly null or jointly non-null. -/
theorem diff_classifier_fields :
    (∀ a b : ℚ, (mkDiff (some a) (some b)).abs = some |a - b| ∧
      (mkDiff (some a) (some b)).pct = some (roundTo 4 (pctExact a b)) ∧
      (mkDiff (some a) (some b)).isMatch = some (decide (pctExact a b < THRESHOLD))) ∧
    (∀ a b : ℚ, max |a| |b| = 0 → pctExact a b = 0) ∧
    (∀ a b : ℚ, max |a| |b| ≠ 0 →
      pctExact a b = |a - b| / max |a| |b| * 100) ∧
    (∀ b, mkDiff none b = { abs := none, pct := none, isMatch := none }) ∧
    (∀ a, mkDiff a none = { abs := none, pct := none, isMatch := none }) ∧
    (∀ a b, diffConsistent (mkDiff a b)) ∧
    (∀ (v : Option ℚ) (x : ℚ), diffConsistent (normDiff v x)) ∧
    (∀ (flows : List (ℤ × ℚ)) (day : DayEntry), diffConsistent day.diff →
      diffConsistent (normalizeDay flows day).diff_normalized) := by
  refine ⟨fun a b => ⟨rfl, rfl, rfl⟩, ?_, ?_, fun b => rfl, fun a => ?_,
    diffConsistent_mkDiff, diffConsistent_normDiff, ?_⟩
  · intro a b h
    simp [pctExact, h]
  · intro a b h
    simp [pctExact, h]
  · cases a <;> rfl
  · intro flows day hday
    cases h1 : day.hyperliquid.last_timestamp with
    | none => rw [normalizeDay_fallback _ _ (Or.inl h1)]; exact hday
    | some hlTs =>
      cases h2 : day.artemis.last_timestamp with
      | none => rw [normalizeDay_fallback _ _ (Or.inr (Or.inl h2))]; exact hday
      | some artTs =>
        cases h3 : day.hyperliquid.value with
        | none => rw [normalizeDay_fallback _ _ (Or.inr (Or.inr h3))]; exact hday
        | some hlVal =>
          simp only [normalizeDay, h1, h2, h3]
          exact diffConsistent_normDiff _ _

/-- Witness for the amended C2 at the degenerate pair (0, 0). -/
theorem diff_classifier_fields_witness : pctExact 0 0 = 0 :=
  diff_classifier_fields.2.1 0 0 (by norm_num)

/-- C10: at the persisted interface the stored pct is the exact percentage
rounded to 4 decimals while the raw abs is stored unrounded; the normalized
value, the flow adjustment and the normalized abs are rounded to 6
decimals; match is always decided on the unrounded pct before rounding;
and there is an input whose persisted record carries pct = 0.5 together
with match = true. -/
theorem persisted_rounding :
    (∀ a b : ℚ, (mkDiff (some a) (some b)).pct = some (roundTo 4 (pctExact a b)) ∧
      (mkDiff (some a) (some b)).abs = some |a - b| ∧
      (mkDiff (some a) (some b)).isMatch = some (decide (pctExact a b < THRESHOLD))) ∧
    (∀ (flows : List (ℤ × ℚ)) (day : DayEntry) (hlTs artTs : ℤ) (hlVal artVal : ℚ),
      day.hyperliquid.last_timestamp = some hlTs →
      day.artemis.last_timestamp = some artTs →
      day.hyperliquid.value = some hlVal →
      day.artemis.value = some artVal →
      (normalizeDay flows day).hyperliquid_normalized.value =
        some (roundTo 6 (hlVal + netFlow flows hlTs artTs)) ∧
      (normalizeDay flows day).hyperliquid_normalized.flow_adjustment =
        roundTo 6 (netFlow flows hlTs artTs) ∧
      (normalizeDay flows day).diff_normalized.abs =
        some (roundTo 6 |artVal - (hlVal + netFlow flows hlTs artTs)|) ∧
      (normalizeDay flows day).diff_normalized.pct =
        some (roundTo 4 (pctExact artVal (hlVal + netFlow flows hlTs artTs))) ∧
      (normalizeDay flows day).diff_normalized.isMatch =
        some (decide (pctExact artVal (hlVal + netFlow flows hlTs artTs) < THRESHOLD))) ∧
    ((mkDiff (some 200000) (some (4975002/25))).pct = some (1/2) ∧
      (mkDiff (some 200000) (some (4975002/25))).isMatch = some true) := by
  refine ⟨fun a b => ⟨rfl, rfl, rfl⟩, ?_, ?_, ?_⟩
  · intro flows day hlTs artTs hlVal artVal h1 h2 h3 h4
    refine ⟨?_, ?_, ?_, ?_, ?_⟩ <;> simp only [normalizeDay, h1, h2, h3, h4, normDiff]
  · show some (roundTo 4 (pctExact 200000 (4975002/25))) = some (1/2)
    have hp : pctExact 200000 (4975002/25) = 12499/25000 := by
      norm_num [pctExact, abs_div,
        max_eq_left (show |(4975002:ℚ)|/|25| ≤ 200000 by norm_num)]
    rw [hp]
    norm_num [roundTo, rndHalfEven]
  · show some (decide (pctExact 200000 (4975002/25) < THRESHOLD)) = some true
    have hp : pctExact 200000 (4975002/25) = 12499/25000 := by
      norm_num [pctExact, abs_div,
        max_eq_left (show |(4975002:ℚ)|/|25| ≤ 200000 by norm_num)]
    rw [hp]
    simp only [Option.some.injEq, decide_eq_true_eq, THRESHOLD]
    norm_num

/-- Witness for C10 at a concrete normalized day with one in-gap flow. -/
theorem persisted_rounding_witness :
    (normalizeDay c10flows c10day).hyperliquid_normalized.value =
      some (roundTo 6 (8 + netFlow c10flows 30 40)) ∧
    (normalizeDay c10flows c10day).hyperliquid_normalized.flow_adjustment =
      roundTo 6 (netFlow c10flows 30 40) ∧
    (normalizeDay c10flows c10day).diff_normalized.abs =
      some (roundTo 6 |20 - (8 + netFlow c10flows 30 40)|) ∧
    (normalizeDay c10flows c10day).diff_normalized.pct =
      some (roundTo 4 (pctExact 20 (8 + netFlow c10flows 30 40))) ∧
    (normalizeDay c10flows c10day).diff_normalized.isMatch =
      some (decide (pctExact 20 (8 + netFlow c10flows 30 40) < THRESHOLD)) :=
  persisted_rounding.2.1 c10flows c10day 30 40 8 20 rfl rfl rfl rfl

theorem countP_congr_local {α : Type} {p q : α → Bool} :
    ∀ {l : List α}, (∀ a ∈ l, p a = q a) → l.countP p = l.countP q := by
  intro l
  induction l with
  | nil => intro _; rfl
  | cons a t ih =>
    intro h
    rw [List.countP_cons, List.countP_cons, h a (List.mem_cons_self _ _),
      ih fun x hx => h x (List.mem_cons_of_mem _ hx)]

theorem bucket_filter_length_one (p : ℚ) (hp : 0 ≤ p) :
    (BUCKETS.filter (inBucket p)).length = 1 := by
  rcases lt_or_le p (1/2) with h1 | h1
  · simp [BUCKETS, inBucket, List.filter_cons,
        hp,
        (show ¬ ((1/2:ℚ) ≤ p) from not_le.mpr (by linarith)),
      (show ¬ (((2:ℚ))⁻¹ ≤ p) from not_le.mpr (by rw [show ((2:ℚ))⁻¹ = 1/2 by norm_num]; linarith)),
        (show ¬ ((1:ℚ) ≤ p) from not_le.mpr (by linarith)),
        (show ¬ ((5:ℚ) ≤ p) from not_le.mpr (by linarith)),
        (show ¬ ((10:ℚ) ≤ p) from not_le.mpr (by linarith)),
        (show ¬ ((25:ℚ) ≤ p) from not_le.mpr (by linarith)),
        (show ¬ ((50:ℚ) ≤ p) from not_le.mpr (by linarith)),
        (show ¬ ((100:ℚ) ≤ p) from not_le.mpr (by linarith)),
        (show ¬ ((250:ℚ) ≤ p) from not_le.mpr (by linarith)),
        (show ¬ ((500:ℚ) ≤ p) from not_le.mpr (by linarith)),
        (show p < (1/2:ℚ) by linarith),
      (show p < ((2:ℚ))⁻¹ by rw [show ((2:ℚ))⁻¹ = 1/2 by norm_num]; linarith),
        (show p < (1:ℚ) by linarith),
        (show p < (5:ℚ) by linarith),
        (show p < (10:ℚ) by linarith),
        (show p < (25:ℚ) by linarith),
        (show p < (50:ℚ) by linarith),
        (show p < (100:ℚ) by linarith),
        (show p < (250:ℚ) by linarith),
        (show p < (500:ℚ) by linarith)]
  rcases lt_or_le p (1) with h2 | h2
  · simp [BUCKETS, inBucket, List.filter_cons,
        hp,
        (show (1/2:ℚ) ≤ p by linarith),
      (show ((2:ℚ))⁻¹ ≤ p by rw [show ((2:ℚ))⁻¹ = 1/2 by norm_num]; linarith),
        (show ¬ ((1:ℚ) ≤ p) from not_le.mpr (by linarith)),
        (show ¬ ((5:ℚ) ≤ p) from not_le.mpr (by linarith)),
        (show ¬ ((10:ℚ) ≤ p) from not_le.mpr (by linarith)),
        (show ¬ ((25:ℚ) ≤ p) from not_le.mpr (by linarith)),
        (show ¬ ((50:ℚ) ≤ p) from not_le.mpr (by linarith)),
        (show ¬ ((100:ℚ) ≤ p) from not_le.mpr (by linarith)),
        (show ¬ ((250:ℚ) ≤ p) from not_le.mpr (by linarith)),
        (show ¬ ((500:ℚ) ≤ p) from not_le.mpr (by linarith)),
        (show ¬ (p < (1/2:ℚ)) from not_lt.mpr (by linarith)),
      (show ¬ (p < ((2:ℚ))⁻¹) from not_lt.mpr (by rw [show ((2:ℚ))⁻¹ = 1/2 by norm_num]; linarith)),
        (show p < (1:ℚ) by linarith),
        (show p < (5:ℚ) by linarith),
        (show p < (10:ℚ) by linarith),
        (show p < (25:ℚ) by linarith),
        (show p < (50:ℚ) by linarith),
        (show p < (100:ℚ) by linarith),
        (show p < (250:ℚ) by linarith),
        (show p < (500:ℚ) by linarith)]
  rcases lt_or_le p (5) with h3 | h3
  · simp [BUCKETS, inBucket, List.filter_cons,
        hp,
        (show (1/2:ℚ) ≤ p by linarith),
      (show ((2:ℚ))⁻¹ ≤ p by rw [show ((2:ℚ))⁻¹ = 1/2 by norm_num]; linarith),
        (show (1:ℚ) ≤ p by linarith),
        (show ¬ ((5:ℚ) ≤ p) from not_le.mpr (by linarith)),
        (show ¬ ((10:ℚ) ≤ p) from not_le.mpr (by linarith)),
        (show ¬ ((25:ℚ) ≤ p) from not_le.mpr (by linarith)),
        (show ¬ ((50:ℚ) ≤ p) from not_le.mpr (by linarith)),
        (show ¬ ((100:ℚ) ≤ p) from not_le.mpr (by linarith)),
        (show ¬ ((250:ℚ) ≤ p) from not_le.mpr (by linarith)),
        (show ¬ ((500:ℚ) ≤ p) from not_le.mpr (by linarith)),
        (show ¬ (p < (1/2:ℚ)) from not_lt.mpr (by linarith)),
      (show ¬ (p < ((2:ℚ))⁻¹) from not_lt.mpr (by rw [show ((2:ℚ))⁻¹ = 1/2 by norm_num]; linarith)),
        (show ¬ (p < (1:ℚ)) from not_lt.mpr (by linarith)),
        (show p < (5:ℚ) by linarith),
        (show p < (10:ℚ) by linarith),
        (show p < (25:ℚ) by linarith),
        (show p < (50:ℚ) by linarith),
        (show p < (100:ℚ) by linarith),
        (show p < (250:ℚ) by linarith),
        (show p < (500:ℚ) by linarith)]
  rcases lt_or_le p (10) with h4 | h4
  · simp [BUCKETS, inBucket, List.filter_cons,
        hp,
        (show (1/2:ℚ) ≤ p by linarith),
      (show ((2:ℚ))⁻¹ ≤ p by rw [show ((2:ℚ))⁻¹ = 1/2 by norm_num]; linarith),
        (show (1:ℚ) ≤ p by linarith),
        (show (5:ℚ) ≤ p by linarith),
        (show ¬ ((10:ℚ) ≤ p) from not_le.mpr (by linarith)),
        (show ¬ ((25:ℚ) ≤ p) from not_le.mpr (by linarith)),
        (show ¬ ((50:ℚ) ≤ p) from not_le.mpr (by linarith)),
        (show ¬ ((100:ℚ) ≤ p) from not_le.mpr (by linarith)),
        (show ¬ ((250:ℚ) ≤ p) from not_le.mpr (by linarith)),
        (show ¬ ((500:ℚ) ≤ p) from not_le.mpr (by linarith)),
        (show ¬ (p < (1/2:ℚ)) from not_lt.mpr (by linarith)),
      (show ¬ (p < ((2:ℚ))⁻¹) from not_lt.mpr (by rw [show ((2:ℚ))⁻¹ = 1/2 by norm_num]; linarith)),
        (show ¬ (p < (1:ℚ)) from not_lt.mpr (by linarith)),
        (show ¬ (p < (5:ℚ)) from not_lt.mpr (by linarith)),
        (show p < (10:ℚ) by linarith),
        (show p < (25:ℚ) by linarith),
        (show p < (50:ℚ) by linarith),
        (show p < (100:ℚ) by linarith),
        (show p < (250:ℚ) by linarith),
        (show p < (500:ℚ) by linarith)]
  rcases lt_or_le p (25) with h5 | h5
  · simp [BUCKETS, inBucket, List.filter_cons,
        hp,
        (show (1/2:ℚ) ≤ p by linarith),
      (show ((2:ℚ))⁻¹ ≤ p by rw [show ((2:ℚ))⁻¹ = 1/2 by norm_num]; linarith),
        (show (1:ℚ) ≤ p by linarith),
        (show (5:ℚ) ≤ p by linarith),
        (show (10:ℚ) ≤ p by linarith),
        (show ¬ ((25:ℚ) ≤ p) from not_le.mpr (by linarith)),
        (show ¬ ((50:ℚ) ≤ p) from not_le.mpr (by linarith)),
        (show ¬ ((100:ℚ) ≤ p) from not_le.mpr (by linarith)),
        (show ¬ ((250:ℚ) ≤ p) from not_le.mpr (by linarith)),
        (show ¬ ((500:ℚ) ≤ p) from not_le.mpr (by linarith)),
        (show ¬ (p < (1/2:ℚ)) from not_lt.mpr (by linarith)),
      (show ¬ (p < ((2:ℚ))⁻¹) from not_lt.mpr (by rw [show ((2:ℚ))⁻¹ = 1/2 by norm_num]; linarith)),
        (show ¬ (p < (1:ℚ)) from not_lt.mpr (by linarith)),
        (show ¬ (p < (5:ℚ)) from not_lt.mpr (by linarith)),
        (show ¬ (p < (10:ℚ)) from not_lt.mpr (by linarith)),
        (show p < (25:ℚ) by linarith),
        (show p < (50:ℚ) by linarith),
        (show p < (100:ℚ) by linarith),
        (show p < (250:ℚ) by linarith),
        (show p < (500:ℚ) by linarith)]
  rcases lt_or_le p (50) with h6 | h6
  · simp [BUCKETS, inBucket, List.filter_cons,
        hp,
        (show (1/2:ℚ) ≤ p by linarith),
      (show ((2:ℚ))⁻¹ ≤ p by rw [show ((2:ℚ))⁻¹ = 1/2 by norm_num]; linarith),
        (show (1:ℚ) ≤ p by linarith),
        (show (5:ℚ) ≤ p by linarith),
        (show (10:ℚ) ≤ p by linarith),
        (show (25:ℚ) ≤ p by linarith),
        (show ¬ ((50:ℚ) ≤ p) from not_le.mpr (by linarith)),
        (show ¬ ((100:ℚ) ≤ p) from not_le.mpr (by linarith)),
        (show ¬ ((250:ℚ) ≤ p) from not_le.mpr (by linarith)),
        (show ¬ ((500:ℚ) ≤ p) from not_le.mpr (by linarith)),
        (show ¬ (p < (1/2:ℚ)) from not_lt.mpr (by linarith)),
      (show ¬ (p < ((2:ℚ))⁻¹) from not_lt.mpr (by rw [show ((2:ℚ))⁻¹ = 1/2 by norm_num]; linarith)),
        (show ¬ (p < (1:ℚ)) from not_lt.mpr (by linarith)),
        (show ¬ (p < (5:ℚ)) from not_lt.mpr (by linarith)),
        (show ¬ (p < (10:ℚ)) from not_lt.mpr (by linarith)),
        (show ¬ (p < (25:ℚ)) from not_lt.mpr (by linarith)),
        (show p < (50:ℚ) by linarith),
        (show p < (100:ℚ) by linarith),
        (show p < (250:ℚ) by linarith),
        (show p < (500:ℚ) by linarith)]
  rcases lt_or_le p (100) with h7 | h7
  · simp [BUCKETS, inBucket, List.filter_cons,
        hp,
        (show (1/2:ℚ) ≤ p by linarith),
      (show ((2:ℚ))⁻¹ ≤ p by rw [show ((2:ℚ))⁻¹ = 1/2 by norm_num]; linarith),
        (show (1:ℚ) ≤ p by linarith),
        (show (5:ℚ) ≤ p by linarith),
        (show (10:ℚ) ≤ p by linarith),
        (show (25:ℚ) ≤ p by linarith),
        (show (50:ℚ) ≤ p by linarith),
        (show ¬ ((100:ℚ) ≤ p) from not_le.mpr (by linarith)),
        (show ¬ ((250:ℚ) ≤ p) from not_le.mpr (by linarith)),
        (show ¬ ((500:ℚ) ≤ p) from not_le.mpr (by linarith)),
        (show ¬ (p < (1/2:ℚ)) from not_lt.mpr (by linarith)),
      (show ¬ (p < ((2:ℚ))⁻¹) from not_lt.mpr (by rw [show ((2:ℚ))⁻¹ = 1/2 by norm_num]; linarith)),
        (show ¬ (p < (1:ℚ)) from not_lt.mpr (by linarith)),
        (show ¬ (p < (5:ℚ)) from not_lt.mpr (by linarith)),
        (show ¬ (p < (10:ℚ)) from not_lt.mpr (by linarith)),
        (show ¬ (p < (25:ℚ)) from not_lt.mpr (by linarith)),
        (show ¬ (p < (50:ℚ)) from not_lt.mpr (by linarith)),
        (show p < (100:ℚ) by linarith),
        (show p < (250:ℚ) by linarith),
        (show p < (500:ℚ) by linarith)]
  rcases lt_or_le p (250) with h8 | h8
  · simp [BUCKETS, inBucket, List.filter_cons,
        hp,
        (show (1/2:ℚ) ≤ p by linarith),
      (show ((2:ℚ))⁻¹ ≤ p by rw [show ((2:ℚ))⁻¹ = 1/2 by norm_num]; linarith),
        (show (1:ℚ) ≤ p by linarith),
        (show (5:ℚ) ≤ p by linarith),
        (show (10:ℚ) ≤ p by linarith),
        (show (25:ℚ) ≤ p by linarith),
        (show (50:ℚ) ≤ p by linarith),
        (show (100:ℚ) ≤ p by linarith),
        (show ¬ ((250:ℚ) ≤ p) from not_le.mpr (by linarith)),
        (show ¬ ((500:ℚ) ≤ p) from not_le.mpr (by linarith)),
        (show ¬ (p < (1/2:ℚ)) from not_lt.mpr (by linarith)),
      (show ¬ (p < ((2:ℚ))⁻¹) from not_lt.mpr (by rw [show ((2:ℚ))⁻¹ = 1/2 by norm_num]; linarith)),
        (show ¬ (p < (1:ℚ)) from not_lt.mpr (by linarith)),
        (show ¬ (p < (5:ℚ)) from not_lt.mpr (by linarith)),
        (show ¬ (p < (10:ℚ)) from not_lt.mpr (by linarith)),
        (show ¬ (p < (25:ℚ)) from not_lt.mpr (by linarith)),
        (show ¬ (p < (50:ℚ)) from not_lt.mpr (by linarith)),
        (show ¬ (p < (100:ℚ)) from not_lt.mpr (by linarith)),
        (show p < (250:ℚ) by linarith),
        (show p < (500:ℚ) by linarith)]
  rcases lt_or_le p (500) with h9 | h9
  · simp [BUCKETS, inBucket, List.filter_cons,
        hp,
        (show (1/2:ℚ) ≤ p by linarith),
      (show ((2:ℚ))⁻¹ ≤ p by rw [show ((2:ℚ))⁻¹ = 1/2 by norm_num]; linarith),
        (show (1:ℚ) ≤ p by linarith),
        (show (5:ℚ) ≤ p by linarith),
        (show (10:ℚ) ≤ p by linarith),
        (show (25:ℚ) ≤ p by linarith),
        (show (50:ℚ) ≤ p by linarith),
        (show (100:ℚ) ≤ p by linarith),
        (show (250:ℚ) ≤ p by linarith),
        (show ¬ ((500:ℚ) ≤ p) from not_le.mpr (by linarith)),
        (show ¬ (p < (1/2:ℚ)) from not_lt.mpr (by linarith)),
      (show ¬ (p < ((2:ℚ))⁻¹) from not_lt.mpr (by rw [show ((2:ℚ))⁻¹ = 1/2 by norm_num]; linarith)),
        (show ¬ (p < (1:ℚ)) from not_lt.mpr (by linarith)),
        (show ¬ (p < (5:ℚ)) from not_lt.mpr (by linarith)),
        (show ¬ (p < (10:ℚ)) from not_lt.mpr (by linarith)),
        (show ¬ (p < (25:ℚ)) from not_lt.mpr (by linarith)),
        (show ¬ (p < (50:ℚ)) from not_lt.mpr (by linarith)),
        (show ¬ (p < (100:ℚ)) from not_lt.mpr (by linarith)),
        (show ¬ (p < (250:ℚ)) from not_lt.mpr (by linarith)),
        (show p < (500:ℚ) by linarith)]
  simp [BUCKETS, inBucket, List.filter_cons,
      hp,
      (show (1/2:ℚ) ≤ p by linarith),
      (show ((2:ℚ))⁻¹ ≤ p by rw [show ((2:ℚ))⁻¹ = 1/2 by norm_num]; linarith),
      (show (1:ℚ) ≤ p by linarith),
      (show (5:ℚ) ≤ p by linarith),
      (show (10:ℚ) ≤ p by linarith),
      (show (25:ℚ) ≤ p by linarith),
      (show (50:ℚ) ≤ p by linarith),
      (show (100:ℚ) ≤ p by linarith),
      (show (250:ℚ) ≤ p by linarith),
      (show (500:ℚ) ≤ p by linarith),
      (show ¬ (p < (1/2:ℚ)) from not_lt.mpr (by linarith)),
      (show ¬ (p < ((2:ℚ))⁻¹) from not_lt.mpr (by rw [show ((2:ℚ))⁻¹ = 1/2 by norm_num]; linarith)),
      (show ¬ (p < (1:ℚ)) from not_lt.mpr (by linarith)),
      (show ¬ (p < (5:ℚ)) from not_lt.mpr (by linarith)),
      (show ¬ (p < (10:ℚ)) from not_lt.mpr (by linarith)),
      (show ¬ (p < (25:ℚ)) from not_lt.mpr (by linarith)),
      (show ¬ (p < (50:ℚ)) from not_lt.mpr (by linarith)),
      (show ¬ (p < (100:ℚ)) from not_lt.mpr (by linarith)),
      (show ¬ (p < (250:ℚ)) from not_lt.mpr (by linarith)),
      (show ¬ (p < (500:ℚ)) from not_lt.mpr (by linarith))]

/-- C9: every pair with a non-null, non-negative pct falls into exactly one
of the ten fixed half-open buckets, the first-match scan returns exactly
that bucket, and pairs with a null pct are tallied as missing and appear
neither among the bucketed points nor among the mismatch ranking input. -/
theorem distribution_bucketing :
    (∀ p : ℚ, 0 ≤ p → (BUCKETS.filter (inBucket p)).length = 1) ∧
    (∀ p : ℚ, 0 ≤ p → ∃ b, b ∈ BUCKETS ∧ inBucket p b = true ∧
      bucketOf p = some b.1) ∧
    (∀ diffs : List Diff,
      (allPoints diffs).length + missingCount diffs = diffs.length) ∧
    (∀ diffs : List Diff, ∀ d ∈ allPoints diffs, d.pct ≠ none) ∧
    (∀ diffs : List Diff, ∀ d ∈ mismatchPoints diffs, d.pct ≠ none) ∧
    (∀ diffs : List Diff, ∀ d ∈ diffs, d.pct = none →
      d ∉ allPoints diffs ∧ d ∉ mismatchPoints diffs) := by
  have hAll : ∀ (diffs : List Diff), ∀ d ∈ allPoints diffs, d.pct ≠ none := by
    intro diffs d hd
    have := (List.mem_filter.mp hd).2
    simpa using this
  have hMis : ∀ (diffs : List Diff), ∀ d ∈ mismatchPoints diffs, d.pct ≠ none := by
    intro diffs d hd
    exact hAll diffs d (List.mem_filter.mp hd).1
  refine ⟨bucket_filter_length_one, ?_, ?_, hAll, hMis, ?_⟩
  · intro p hp
    rcases find?_of_filter_length_one (bucket_filter_length_one p hp) with
      ⟨b, hb1, hb2, hb3⟩
    exact ⟨b, hb1, hb2, by rw [bucketOf, hb3, Option.map_some']⟩
  · intro diffs
    have h := countP_add_countP_not (fun d : Diff => decide (d.pct ≠ none)) diffs
    rw [allPoints, ← List.countP_eq_length_filter, missingCount]
    rw [← h]
    congr 1
    apply countP_congr_local
    intro d _
    by_cases hd : d.pct = none
    · simp [hd]
    · simp [hd]
  · intro diffs d _ hdn
    constructor
    · intro hmem
      exact hAll diffs d hmem hdn
    · intro hmem
      exact hMis diffs d hmem hdn

/-- Witness for C9 at pct = 3 (the spec example landing in the 1-5 bucket)
and at a one-element list whose pct is null. -/
theorem distribution_bucketing_witness :
    (BUCKETS.filter (inBucket 3)).length = 1 ∧
    ((allPoints [Diff.mk none none none]).length +
      missingCount [Diff.mk none none none] = [Diff.mk none none none].length) :=
  ⟨distribution_bucketing.1 3 (by norm_num),
    distribution_bucketing.2.2.1 [Diff.mk none none none]⟩

theorem countP_eq_one_of_nodup_mem {α : Type} [DecidableEq α] {l : List α}
    {a : α} (hnd : l.Nodup) (ha : a ∈ l) :
    (l.countP fun x => decide (x = a)) = 1 := by
  induction l with
  | nil => exact absurd ha (by simp)
  | cons y t ih =>
    rw [List.nodup_cons] at hnd
    rcases List.mem_cons.mp ha with h | h
    · subst h
      rw [List.countP_cons, if_pos (by simp)]
      have h0 : (t.countP fun x => decide (x = a)) = 0 := by
        rw [List.countP_eq_zero]
        intro x hx
        simp only [decide_eq_true_eq]
        intro he
        exact hnd.1 (he ▸ hx)
      omega
    · rw [List.countP_cons, if_neg (by
        simp only [decide_eq_true_eq]
        intro he
        exact hnd.1 (he ▸ h))]
      rw [ih hnd.2 h]

/-- C7: build_comparison emits one block per entity (exactly one when the
entity list has no duplicates), each block has exactly one aligned pair per
date of the fixed window, the Source-B side of a pair is always resolved
from the bucket at date - 1 (never at date), the first date of the window
reads the Source-B bucket one day before the window start, and the
Source-B fetch filter keeps that look-back date. -/
theorem day_shift_alignment (start : ℤ) (addresses : List String)
    (artemis hyperliquid : ObsStore) (hnd : addresses.Nodup) :
    ((build_comparison start addresses artemis hyperliquid).map
      AddrBlock.address = addresses) ∧
    (∀ a ∈ addresses,
      ((build_comparison start addresses artemis hyperliquid).countP
        fun blk => decide (blk.address = a)) = 1) ∧
    (∀ blk ∈ build_comparison start addresses artemis hyperliquid,
      blk.series.length = DAYS ∧
      (blk.series.map DayEntry.date).Nodup ∧
      (∀ day ∈ blk.series,
        day.hyperliquid.source_date = some (day.date - 1) ∧
        day.hyperliquid.source_date ≠ some day.date ∧
        day.hyperliquid.value =
          (pick_latest (hyperliquid blk.address (day.date - 1))).map
            (fun r => r.account_value) ∧
        day.artemis.value =
          (pick_latest (artemis blk.address day.date)).map
            (fun r => r.account_value) ∧
        day.diff = mkDiff day.artemis.value day.hyperliquid.value ∧
        start ≤ day.date ∧ day.date ≤ start + ((DAYS : ℤ) - 1)) ∧
      (∀ d : ℤ, start ≤ d → d ≤ start + ((DAYS : ℤ) - 1) →
        ∃ day ∈ blk.series, day.date = d) ∧
      (∃ e, blk.series.head? = some e ∧ e.date = start ∧
        e.hyperliquid.value =
          (pick_latest (hyperliquid blk.address (start - 1))).map
            (fun r => r.account_value))) ∧
    hlFilterKeep start (start - 1) = true := by
  refine ⟨?_, ?_, ?_, ?_⟩
  · rw [build_comparison, List.map_map]
    exact List.map_id addresses
  · intro a ha
    rw [build_comparison, List.countP_map]
    exact countP_eq_one_of_nodup_mem hnd ha
  · intro blk hblk
    rcases List.mem_map.mp hblk with ⟨addr, haddr, rfl⟩
    refine ⟨by simp, ?_, ?_, ?_, ?_⟩
    · rw [List.map_map]
      refine (List.nodup_range DAYS).map ?_
      intro i j hij
      simp only [Function.comp, buildEntry] at hij
      omega
    · intro day hday
      rcases List.mem_map.mp hday with ⟨i, hi, rfl⟩
      rw [List.mem_range] at hi
      refine ⟨rfl, ?_, rfl, rfl, rfl, ?_, ?_⟩
      · simp only [buildEntry, ne_eq, Option.some.injEq]
        omega
      · simp only [buildEntry]
        omega
      · simp only [buildEntry, DAYS] at hi ⊢
        omega
    · intro d hd1 hd2
      refine ⟨buildEntry (artemis addr (start + ((d - start).toNat : ℤ)))
        (hyperliquid addr (start + ((d - start).toNat : ℤ) - 1))
        (start + ((d - start).toNat : ℤ)), ?_, ?_⟩
      · refine List.mem_map.mpr ⟨(d - start).toNat, List.mem_range.mpr ?_, rfl⟩
        simp only [DAYS] at hd2 ⊢
        omega
      · simp only [buildEntry]
        omega
    · have hr : List.range DAYS = 0 :: List.map Nat.succ (List.range 31) :=
        List.range_succ_eq_map 31
      refine ⟨buildEntry (artemis addr (start + ((0 : ℕ) : ℤ)))
        (hyperliquid addr (start + ((0 : ℕ) : ℤ) - 1)) (start + ((0 : ℕ) : ℤ)),
        ?_, ?_, ?_⟩
      · simp only []
        rw [hr]
        rfl
      · simp [buildEntry]
      · simp [buildEntry]
  · simp only [hlFilterKeep, DAYS]
    simp only [Bool.not_eq_true', Bool.or_eq_false_iff, decide_eq_false_iff_not]
    constructor
    · omega
    · push_cast
      omega

/-- Witness for C7 at a two-address store with the window starting at day
100. -/
theorem day_shift_alignment_witness :
    ((build_comparison 100 ["a", "b"] (fun _ _ => []) (fun _ _ => [])).map
      AddrBlock.address = ["a", "b"]) ∧
    (∀ a ∈ ["a", "b"],
      ((build_comparison 100 ["a", "b"] (fun _ _ => []) (fun _ _ => [])).countP
        fun blk => decide (blk.address = a)) = 1) ∧
    (∀ blk ∈ build_comparison 100 ["a", "b"] (fun _ _ => []) (fun _ _ => []),
      blk.series.length = DAYS ∧
      (blk.series.map DayEntry.date).Nodup ∧
      (∀ day ∈ blk.series,
        day.hyperliquid.source_date = some (day.date - 1) ∧
        day.hyperliquid.source_date ≠ some day.date ∧
        day.hyperliquid.value =
          (pick_latest ((fun (_ : String) (_ : ℤ) => ([] : List ObsRec))
            blk.address (day.date - 1))).map (fun r => r.account_value) ∧
        day.artemis.value =
          (pick_latest ((fun (_ : String) (_ : ℤ) => ([] : List ObsRec))
            blk.address day.date)).map (fun r => r.account_value) ∧
        day.diff = mkDiff day.artemis.value day.hyperliquid.value ∧
        (100 : ℤ) ≤ day.date ∧ day.date ≤ 100 + ((DAYS : ℤ) - 1)) ∧
      (∀ d : ℤ, 100 ≤ d → d ≤ 100 + ((DAYS : ℤ) - 1) →
        ∃ day ∈ blk.series, day.date = d) ∧
      (∃ e, blk.series.head? = some e ∧ e.date = 100 ∧
        e.hyperliquid.value =
          (pick_latest ((fun (_ : String) (_ : ℤ) => ([] : List ObsRec))
            blk.address (100 - 1))).map (fun r => r.account_value))) ∧
    hlFilterKeep 100 (100 - 1) = true :=
  day_shift_alignment 100 ["a", "b"] (fun _ _ => []) (fun _ _ => [])
    (by simp)

/-- C3 counterexample: a rewardsClaim event with a MISSING amount field is
not skipped: delta.get("amount", 0) defaults the amount to 0 and a zero
flow is emitted, so the event does contribute a flow. -/
theorem c3_missing_amount_emits_zero_flow :
    extract_flows [c3event] = [(5, 0)] ∧ extract_flows [c3event] ≠ [] := by
  have h : extract_flows [c3event] = [(5, 0)] := by
    simp [extract_flows, List.insertionSort, flowsOfEvent, c3event, getField,
      deltaOf, flowsAt, amtOrZero, pyTrunc]
  exact ⟨h, by rw [h]; simp⟩

theorem flowsOfEvent_cases (ev : JVal) :
    flowsOfEvent ev = [] ∨
      ∃ q, getField ev "time" = some (.num q) ∧
        flowsOfEvent ev = flowsAt (pyTrunc q) (deltaOf ev) := by
  unfold flowsOfEvent
  cases ht : getField ev "time" with
  | none => exact Or.inl rfl
  | some t =>
    cases t with
    | num q => exact Or.inr ⟨q, rfl, rfl⟩
    | str s => exact Or.inl rfl
    | bool b => exact Or.inl rfl
    | null => exact Or.inl rfl
    | arr xs => exact Or.inl rfl
    | obj fs => exact Or.inl rfl

theorem flowsAt_unrecognized (t : ℤ) (delta : JVal)
    (h : getField delta "type" ∉ ([some (.str "deposit"), some (.str "withdraw"),
      some (.str "rewardsClaim"), some (.str "send"),
      some (.str "accountClassTransfer")] : List (Option JVal))) :
    flowsAt t delta = [] := by
  simp only [List.mem_cons, not_or] at h
  obtain ⟨h1, h2, h3, h4, h5, _⟩ := h
  simp only [flowsAt, if_neg h1, if_neg h2, if_neg h3, if_neg h4, if_neg h5]

theorem flowsAt_deposit_skip (t : ℤ) (delta : JVal)
    (htyp : getField delta "type" = some (.str "deposit"))
    (hbad : getField delta "usdc" = none ∨
      ∃ v, getField delta "usdc" = some v ∧ asFloat v = none) :
    flowsAt t delta = [] := by
  simp only [flowsAt, htyp, if_pos]
  rcases hbad with hb | ⟨v, hv, hvf⟩
  · simp [hb]
  · simp [hv, hvf]

theorem flowsAt_withdraw_skip (t : ℤ) (delta : JVal)
    (htyp : getField delta "type" = some (.str "withdraw"))
    (hbad : getField delta "usdc" = none ∨
      ∃ v, getField delta "usdc" = some v ∧ asFloat v = none) :
    flowsAt t delta = [] := by
  simp only [flowsAt, htyp]
  rcases hbad with hb | ⟨v, hv, hvf⟩
  · simp [hb]
  · simp [hv, hvf]

theorem flowsAt_rewardsClaim_skip (t : ℤ) (delta : JVal)
    (htyp : getField delta "type" = some (.str "rewardsClaim"))
    (hbad : ∃ v, getField delta "amount" = some v ∧ asFloat v = none) :
    flowsAt t delta = [] := by
  rcases hbad with ⟨v, hv, hvf⟩
  simp only [flowsAt, htyp]
  simp [amtOrZero, hv, hvf]

theorem flowsAt_rewardsClaim_missing (t : ℤ) (delta : JVal)
    (htyp : getField delta "type" = some (.str "rewardsClaim"))
    (hmiss : getField delta "amount" = none) :
    flowsAt t delta = [(t, 0)] := by
  simp only [flowsAt, htyp]
  simp [amtOrZero, hmiss]

theorem flowsAt_send_skip (t : ℤ) (delta : JVal)
    (htyp : getField delta "type" = some (.str "send"))
    (hbad : ∃ v, getField delta "usdcValue" = some v ∧ asFloat v = none) :
    flowsAt t delta = [] := by
  rcases hbad with ⟨v, hv, hvf⟩
  simp only [flowsAt, htyp]
  simp [sendAmt, hv, hvf]

theorem flowsAt_accountClassTransfer_skip (t : ℤ) (delta : JVal)
    (htyp : getField delta "type" = some (.str "accountClassTransfer"))
    (hbad : ∃ v, getField delta "usdc" = some v ∧ asFloat v = none) :
    flowsAt t delta = [] := by
  rcases hbad with ⟨v, hv, hvf⟩
  simp only [flowsAt, htyp]
  simp [amtOrZero, hv, hvf]

theorem strFieldEq_eq_of_true {delta : JVal} {k s1 s2 : String}
    (h1 : strFieldEq delta k s1 = true) (h2 : strFieldEq delta k s2 = true) :
    s1 = s2 := by
  unfold strFieldEq at h1 h2
  cases hg : getField delta k with
  | none =>
    rw [hg] at h1 h2
    simp only [decide_eq_true_eq] at h1 h2
    rw [h1, h2]
  | some v =>
    rw [hg] at h1 h2
    cases v with
    | str t =>
      simp only [decide_eq_true_eq] at h1 h2
      rw [← h1, ← h2]
    | num q => simp at h1
    | bool b => simp at h1
    | null => simp at h1
    | arr xs => simp at h1
    | obj fs => simp at h1

theorem flowsAt_send_amount_nonnumeric (t : ℤ) (delta : JVal)
    (htyp : getField delta "type" = some (.str "send"))
    (h1 : getField delta "usdcValue" = none)
    (hbad : ∃ v, getField delta "amount" = some v ∧ asFloat v = none) :
    flowsAt t delta = [] := by
  rcases hbad with ⟨v, hv, hvf⟩
  simp only [flowsAt, htyp]
  simp [sendAmt, amtOrZero, h1, hv, hvf]

theorem flowsAt_send_missing_perp_to_spot (t : ℤ) (delta : JVal)
    (htyp : getField delta "type" = some (.str "send"))
    (h1 : getField delta "usdcValue" = none)
    (h2 : getField delta "amount" = none)
    (hsrc : strFieldEq delta "sourceDex" "" = true)
    (hdst : strFieldEq delta "destinationDex" "spot" = true) :
    flowsAt t delta = [(t, 0)] := by
  simp only [flowsAt, htyp]
  simp [sendAmt, amtOrZero, h1, h2, hsrc, hdst]

theorem flowsAt_send_missing_spot_to_perp (t : ℤ) (delta : JVal)
    (htyp : getField delta "type" = some (.str "send"))
    (h1 : getField delta "usdcValue" = none)
    (h2 : getField delta "amount" = none)
    (hsrc : strFieldEq delta "sourceDex" "spot" = true)
    (hdst : strFieldEq delta "destinationDex" "" = true) :
    flowsAt t delta = [(t, 0)] := by
  have hne : strFieldEq delta "sourceDex" "" = false := by
    cases hq : strFieldEq delta "sourceDex" "" with
    | false => rfl
    | true => exact absurd (strFieldEq_eq_of_true hq hsrc) (by decide)
  simp only [flowsAt, htyp]
  simp [sendAmt, amtOrZero, h1, h2, hne, hsrc, hdst]

theorem flowsAt_send_missing_no_direction (t : ℤ) (delta : JVal)
    (htyp : getField delta "type" = some (.str "send"))
    (h1 : getField delta "usdcValue" = none)
    (h2 : getField delta "amount" = none)
    (hd1 : (strFieldEq delta "sourceDex" "" &&
      strFieldEq delta "destinationDex" "spot") = false)
    (hd2 : (strFieldEq delta "sourceDex" "spot" &&
      strFieldEq delta "destinationDex" "") = false) :
    flowsAt t delta = [] := by
  rw [Bool.and_eq_false_iff] at hd1 hd2
  simp only [flowsAt, htyp]
  rcases hd1 with hd1 | hd1 <;> rcases hd2 with hd2 | hd2 <;>
    simp [sendAmt, amtOrZero, h1, h2, hd1, hd2]

theorem flowsAt_accountClassTransfer_missing (t : ℤ) (delta : JVal)
    (htyp : getField delta "type" = some (.str "accountClassTransfer"))
    (hmiss : getField delta "usdc" = none) :
    flowsAt t delta = [(t, 0)] := by
  simp only [flowsAt, htyp]
  simp [amtOrZero, hmiss]

/-- C3 amended: events lacking a timestamp (or with a JSON-null one)
contribute no flow; unrecognized event types contribute no flow and raise
no error; a NON-NUMERIC amount payload is skipped in every recognized
branch (for send, whether it sits under usdcValue or under the amount
fallback); a MISSING amount is skipped only for deposit and withdraw
(whose delta["usdc"] access raises a caught KeyError), while rewardsClaim,
send and accountClassTransfer default a missing amount to 0 via
.get(..., 0) and emit a zero-amount flow - for send under either
source/destination direction condition, and no flow when neither
direction holds (see the counterexample for rewardsClaim). -/
theorem ledger_event_skipping :
    (∀ ev : JVal, getField ev "time" = none → flowsOfEvent ev = []) ∧
    (∀ ev : JVal, getField ev "time" = some .null → flowsOfEvent ev = []) ∧
    (∀ ev : JVal, typOf ev ∉ ([some (.str "deposit"), some (.str "withdraw"),
        some (.str "rewardsClaim"), some (.str "send"),
        some (.str "accountClassTransfer")] : List (Option JVal)) →
      flowsOfEvent ev = []) ∧
    (∀ ev : JVal, typOf ev = some (.str "deposit") →
      (getField (deltaOf ev) "usdc" = none ∨
        ∃ v, getField (deltaOf ev) "usdc" = some v ∧ asFloat v = none) →
      flowsOfEvent ev = []) ∧
    (∀ ev : JVal, typOf ev = some (.str "withdraw") →
      (getField (deltaOf ev) "usdc" = none ∨
        ∃ v, getField (deltaOf ev) "usdc" = some v ∧ asFloat v = none) →
      flowsOfEvent ev = []) ∧
    (∀ ev : JVal, typOf ev = some (.str "rewardsClaim") →
      (∃ v, getField (deltaOf ev) "amount" = some v ∧ asFloat v = none) →
      flowsOfEvent ev = []) ∧
    (∀ (ev : JVal) (q : ℚ), getField ev "time" = some (.num q) →
      typOf ev = some (.str "rewardsClaim") →
      getField (deltaOf ev) "amount" = none →
      flowsOfEvent ev = [(pyTrunc q, 0)]) ∧
    (∀ ev : JVal, typOf ev = some (.str "send") →
      (∃ v, getField (deltaOf ev) "usdcValue" = some v ∧ asFloat v = none) →
      flowsOfEvent ev = []) ∧
    (∀ ev : JVal, typOf ev = some (.str "accountClassTransfer") →
      (∃ v, getField (deltaOf ev) "usdc" = some v ∧ asFloat v = none) →
      flowsOfEvent ev = []) ∧
    (∀ ev : JVal, typOf ev = some (.str "send") →
      getField (deltaOf ev) "usdcValue" = none →
      (∃ v, getField (deltaOf ev) "amount" = some v ∧ asFloat v = none) →
      flowsOfEvent ev = []) ∧
    (∀ (ev : JVal) (q : ℚ), getField ev "time" = some (.num q) →
      typOf ev = some (.str "send") →
      getField (deltaOf ev) "usdcValue" = none →
      getField (deltaOf ev) "amount" = none →
      strFieldEq (deltaOf ev) "sourceDex" "" = true →
      strFieldEq (deltaOf ev) "destinationDex" "spot" = true →
      flowsOfEvent ev = [(pyTrunc q, 0)]) ∧
    (∀ (ev : JVal) (q : ℚ), getField ev "time" = some (.num q) →
      typOf ev = some (.str "send") →
      getField (deltaOf ev) "usdcValue" = none →
      getField (deltaOf ev) "amount" = none →
      strFieldEq (deltaOf ev) "sourceDex" "spot" = true →
      strFieldEq (deltaOf ev) "destinationDex" "" = true →
      flowsOfEvent ev = [(pyTrunc q, 0)]) ∧
    (∀ ev : JVal, typOf ev = some (.str "send") →
      getField (deltaOf ev) "usdcValue" = none →
      getField (deltaOf ev) "amount" = none →
      (strFieldEq (deltaOf ev) "sourceDex" "" &&
        strFieldEq (deltaOf ev) "destinationDex" "spot") = false →
      (strFieldEq (deltaOf ev) "sourceDex" "spot" &&
        strFieldEq (deltaOf ev) "destinationDex" "") = false →
      flowsOfEvent ev = []) ∧
    (∀ (ev : JVal) (q : ℚ), getField ev "time" = some (.num q) →
      typOf ev = some (.str "accountClassTransfer") →
      getField (deltaOf ev) "usdc" = none →
      flowsOfEvent ev = [(pyTrunc q, 0)]) := by
  refine ⟨?_, ?_, ?_, ?_, ?_, ?_, ?_, ?_, ?_, ?_, ?_, ?_, ?_, ?_⟩
  · intro ev h
    unfold flowsOfEvent
    rw [h]
  · intro ev h
    unfold flowsOfEvent
    rw [h]
  · intro ev h
    rcases flowsOfEvent_cases ev with h2 | ⟨q, hq, h2⟩
    · exact h2
    · rw [h2]; exact flowsAt_unrecognized _ _ h
  · intro ev h hbad
    rcases flowsOfEvent_cases ev with h2 | ⟨q, hq, h2⟩
    · exact h2
    · rw [h2]; exact flowsAt_deposit_skip _ _ h hbad
  · intro ev h hbad
    rcases flowsOfEvent_cases ev with h2 | ⟨q, hq, h2⟩
    · exact h2
    · rw [h2]; exact flowsAt_withdraw_skip _ _ h hbad
  · intro ev h hbad
    rcases flowsOfEvent_cases ev with h2 | ⟨q, hq, h2⟩
    · exact h2
    · rw [h2]; exact flowsAt_rewardsClaim_skip _ _ h hbad
  · intro ev q hq h hmiss
    unfold flowsOfEvent
    rw [hq]
    exact flowsAt_rewardsClaim_missing _ _ h hmiss
  · intro ev h hbad
    rcases flowsOfEvent_cases ev with h2 | ⟨q, hq, h2⟩
    · exact h2
    · rw [h2]; exact flowsAt_send_skip _ _ h hbad
  · intro ev h hbad
    rcases flowsOfEvent_cases ev with h2 | ⟨q, hq, h2⟩
    · exact h2
    · rw [h2]; exact flowsAt_accountClassTransfer_skip _ _ h hbad
  · intro ev h h1 hbad
    rcases flowsOfEvent_cases ev with h2 | ⟨q, hq, h2⟩
    · exact h2
    · rw [h2]; exact flowsAt_send_amount_nonnumeric _ _ h h1 hbad
  · intro ev q hq h h1 h2 hsrc hdst
    unfold flowsOfEvent
    rw [hq]
    exact flowsAt_send_missing_perp_to_spot _ _ h h1 h2 hsrc hdst
  · intro ev q hq h h1 h2 hsrc hdst
    unfold flowsOfEvent
    rw [hq]
    exact flowsAt_send_missing_spot_to_perp _ _ h h1 h2 hsrc hdst
  · intro ev h h1 h2 hd1 hd2
    rcases flowsOfEvent_cases ev with h3 | ⟨q, hq, h3⟩
    · exact h3
    · rw [h3]; exact flowsAt_send_missing_no_direction _ _ h h1 h2 hd1 hd2
  · intro ev q hq h hmiss
    unfold flowsOfEvent
    rw [hq]
    exact flowsAt_accountClassTransfer_missing _ _ h hmiss

/-- Witness for the amended C3: a deposit event whose usdc payload is a
non-numeric string is skipped. -/
theorem ledger_event_skipping_witness :
    flowsOfEvent (.obj [("time", .num 9),
      ("delta", .obj [("type", .str "deposit"), ("usdc", .str "oops")])]) = [] :=
  ledger_event_skipping.2.2.2.1
    (.obj [("time", .num 9),
      ("delta", .obj [("type", .str "deposit"), ("usdc", .str "oops")])])
    (by simp [typOf, deltaOf, getField])
    (Or.inr ⟨.str "oops", by simp [deltaOf, getField], rfl⟩)

theorem extract_flows_congr {l1 l2 : List JVal}
    (h1 : ∀ e ∈ l1, evWf e) (h2 : ∀ e ∈ l2, evWf e)
    (hc : l1.map canon = l2.map canon) :
    extract_flows (dedup l1) = extract_flows (dedup l2) := by
  rw [extract_flows, extract_flows]
  congr 1
  exact flatMap_flows_congr
    (fun x hx => h1 x (dedup_subset hx))
    (fun x hx => h2 x (dedup_subset hx))
    (dedup_map_canon_congr hc)

/-- C6: deduplication collapses ledger events with equal canonical content
(structural equality up to object field order, the json.dumps sort_keys
dedup key): the deduplicated list carries pairwise distinct canonical
forms, every input event is represented exactly once, the surviving
representative contributes exactly the flows of each of its duplicates,
the extractor output is determined by canonical content alone, the flow
list is sorted ascending by timestamp, and reordering the fields of a
dict does not change its canonical form. -/
theorem ledger_dedup_determinism (l1 l2 : List JVal)
    (h1 : ∀ e ∈ l1, evWf e) (h2 : ∀ e ∈ l2, evWf e)
    (hc : l1.map canon = l2.map canon) :
    ((dedup l1).map canon).Nodup ∧
    (∀ e ∈ l1, ((dedup l1).countP fun x => decide (canon x = canon e)) = 1) ∧
    (∀ e ∈ l1, ∀ x ∈ dedup l1, canon x = canon e →
      flowsOfEvent x = flowsOfEvent e) ∧
    extract_flows (dedup l1) = extract_flows (dedup l2) ∧
    (∀ e ∈ l1, extract_flows (dedup (l1 ++ [e])) = extract_flows (dedup l1)) ∧
    List.Sorted flowLe (extract_flows (dedup l1)) ∧
    (∀ fs gs : List (String × JVal), fs.Perm gs → (fs.map Prod.fst).Nodup →
      canon (.obj fs) = canon (.obj gs)) := by
  refine ⟨dedup_canon_nodup l1, fun e he => dedup_countP_one he, ?_,
    extract_flows_congr h1 h2 hc, ?_, ?_, fun fs gs hp hn => canon_obj_perm hp hn⟩
  · intro e he x hx hcx
    exact flowsOfEvent_of_canon_eq (h1 x (dedup_subset hx)) (h1 e he) hcx
  · intro e he
    have hstep : dedup (l1 ++ [e]) = dedupStep (dedup l1) e := by
      rw [dedup, dedup, List.foldl_append]
      rfl
    rw [hstep, extract_flows, extract_flows]
    congr 1
    apply flatMap_flows_congr
    · intro x hx
      rcases dedupStep_mem hx with h | h
      · exact h1 x (dedup_subset h)
      · exact h ▸ h1 e he
    · intro x hx
      exact h1 x (dedup_subset hx)
    · apply dedupStep_map_canon_of_any
      rw [List.any_eq_true]
      rcases List.mem_map.mp (dedup_covers he) with ⟨x, hx, hcx⟩
      exact ⟨x, hx, by simp [hcx]⟩
  · rw [extract_flows]
    exact List.sorted_insertionSort flowLe _

/-- Witness for C6 at a two-event list whose second event duplicates the
first with both nesting levels field-reordered. -/
theorem ledger_dedup_determinism_witness :
    ((dedup [c6event1, c6event2]).map canon).Nodup ∧
    (∀ e ∈ [c6event1, c6event2],
      ((dedup [c6event1, c6event2]).countP
        fun x => decide (canon x = canon e)) = 1) ∧
    (∀ e ∈ [c6event1, c6event2], ∀ x ∈ dedup [c6event1, c6event2],
      canon x = canon e → flowsOfEvent x = flowsOfEvent e) ∧
    extract_flows (dedup [c6event1, c6event2]) =
      extract_flows (dedup [c6event1, c6event2]) ∧
    (∀ e ∈ [c6event1, c6event2],
      extract_flows (dedup ([c6event1, c6event2] ++ [e])) =
        extract_flows (dedup [c6event1, c6event2])) ∧
    List.Sorted flowLe (extract_flows (dedup [c6event1, c6event2])) ∧
    (∀ fs gs : List (String × JVal), fs.Perm gs → (fs.map Prod.fst).Nodup →
      canon (.obj fs) = canon (.obj gs)) :=
  ledger_dedup_determinism [c6event1, c6event2] [c6event1, c6event2]
    (by
      intro e he
      simp only [List.mem_cons, List.mem_singleton] at he
      rcases he with he | he | he
      · subst he
        refine ⟨by simp [topKeysNodup, c6event1], ?_⟩
        intro d hd
        simp [getField, c6event1] at hd
        subst hd
        simp [topKeysNodup]
      · subst he
        refine ⟨by simp [topKeysNodup, c6event2], ?_⟩
        intro d hd
        simp [getField, c6event2] at hd
        subst hd
        simp [topKeysNodup]
      · exact absurd he (by simp))
    (by
      intro e he
      simp only [List.mem_cons, List.mem_singleton] at he
      rcases he with he | he | he
      · subst he
        refine ⟨by simp [topKeysNodup, c6event1], ?_⟩
        intro d hd
        simp [getField, c6event1] at hd
        subst hd
        simp [topKeysNodup]
      · subst he
        refine ⟨by simp [topKeysNodup, c6event2], ?_⟩
        intro d hd
        simp [getField, c6event2] at hd
        subst hd
        simp [topKeysNodup]
      · exact absurd he (by simp))
    rfl
